import Mathlib

/-!
# taskfoundry — verification of the multi-engine dispatch / parsing core

Shallow embedding of the parts of the repository relevant to the frozen
claims:

* `src/config/systemConfig.js` — usage tracking (`getUsage`, `updateUsage`)
* `src/engines/groqEngine.js` — response parsing for TASK and COMMIT mode
* `src/engines/autoEngine.js` — the dispatch / fallback orchestrator
  (`callAuto`, `isRetryableError`, `getErrorType`, `mapModelToEngine`)
* `src/engines/freeTierEngine.js` — quota-gated community adapter
* `src/createCommit.js` — `formatCommitMessage`

JavaScript strings are modelled as `List Char`; the JS string methods used
by the source (`trim`, `startsWith`, `substring`, `split("\n")`,
`toLowerCase`, regex fragments) are given explicit executable models below.
Effects (file writes, network calls, console output) are made explicit as
returned traces.
-/

/-! ## JS string primitives over `List Char` -/

/-- JS whitespace class (`\s`), restricted to the characters that occur in
this code base's data; matches `Char.isWhitespace`. -/
def isWS (c : Char) : Bool := c.isWhitespace

/-- `String.prototype.trimStart`. -/
def jsTrimLeft (l : List Char) : List Char := l.dropWhile isWS

/-- `String.prototype.trimEnd`. -/
def jsTrimRight (l : List Char) : List Char := (l.reverse.dropWhile isWS).reverse

/-- `String.prototype.trim`. -/
def jsTrim (l : List Char) : List Char := jsTrimLeft (jsTrimRight l)

/-- `String.prototype.toLowerCase` (ASCII-faithful). -/
def jsToLower (l : List Char) : List Char := l.map Char.toLower

/-- `String.prototype.startsWith pat` — boolean prefix test. -/
def prefixB : List Char → List Char → Bool
  | [], _ => true
  | _ :: _, [] => false
  | a :: as, b :: bs => a == b && prefixB as bs

/-- `String.prototype.split("\n")`. -/
def splitNl : List Char → List (List Char)
  | [] => [[]]
  | c :: t =>
    if c = '\n' then [] :: splitNl t
    else
      match splitNl t with
      | [] => [[c]]
      | h :: r => (c :: h) :: r

/-- `Array.prototype.join("\n")` (also used to re-assemble responses). -/
def intercalNl : List (List Char) → List Char
  | [] => []
  | [l] => l
  | l :: ls => l ++ '\n' :: intercalNl ls

/-- `String.prototype.includes pat` — substring occurrence test. -/
def containsSub (pat : List Char) : List Char → Bool
  | [] => pat.isEmpty
  | c :: t => prefixB pat (c :: t) || containsSub pat t

/-- Case-insensitive substring test, modelling `/pat/i.test(s)` for the
letter-only / digit-only patterns used by the error classifiers. -/
def containsCI (pat s : List Char) : Bool :=
  containsSub (jsToLower pat) (jsToLower s)

/-! ## UsageTracker — `src/config/systemConfig.js` -/

/-- The persisted usage record (`~/.taskfoundry/usage.json`). -/
structure UsageRec where
  today : Nat
  month : Nat
  lastUsed : String
  currentMonth : String
deriving DecidableEq, Repr

/-- The usage file's state: `none` = file missing, `some none` = present but
unparseable (the `catch` branch of `getUsage`), `some (some u)` = parses
to `u`. -/
abbrev UsageFile := Option (Option UsageRec)

/-- `getUsage()` from `src/config/systemConfig.js` (lines 114–156), as a
function of the file state and the current wall-clock day/month labels
(`new Date().toDateString()` and `toISOString().slice(0, 7)`). -/
def getUsage (file : UsageFile) (curDay curMonth : String) : UsageRec :=
  match file with
  | none => ⟨0, 0, curDay, curMonth⟩
  | some none => ⟨0, 0, curDay, curMonth⟩
  | some (some u) =>
    -- Reset daily counter if it's a new day
    let u1 := if u.lastUsed ≠ curDay then { u with today := 0, lastUsed := curDay } else u
    -- Reset monthly counter if it's a new month
    if u1.currentMonth ≠ curMonth then { u1 with month := 0, currentMonth := curMonth } else u1

/-- The record written by `updateUsage()` (lines 158–169): the freshly
rolled-over record with both counters incremented. -/
def updateUsageRecord (file : UsageFile) (curDay curMonth : String) : UsageRec :=
  let usage := getUsage file curDay curMonth
  { usage with today := usage.today + 1, month := usage.month + 1 }

/-- File operations performed on the usage file. `statUsage` models the
`existsSync` check, `readUsage` the `readFileSync`, `writeUsage` the
`writeFileSync` with the serialized record. -/
inductive FsOp where
  | statUsage
  | readUsage
  | writeUsage (r : UsageRec)
deriving DecidableEq, Repr

def FsOp.isWrite : FsOp → Bool
  | .writeUsage _ => true
  | _ => false

/-- The operations `getUsage()` performs on the usage file: a stat, and a
read when the file exists. It contains no write — the rollover mutates only
the in-memory object. -/
def getUsageOps (file : UsageFile) : List FsOp :=
  match file with
  | none => [.statUsage]
  | some _ => [.statUsage, .readUsage]

/-- A `getUsage()` run: the returned counters, the file operations, and the
resulting file state (unchanged — the function performs no write). -/
def getUsageRun (file : UsageFile) (curDay curMonth : String) :
    UsageRec × List FsOp × UsageFile :=
  (getUsage file curDay curMonth, getUsageOps file, file)

/-- An `updateUsage()` run: re-reads via `getUsage`, increments both
counters, writes the record back. -/
def updateUsageRun (file : UsageFile) (curDay curMonth : String) :
    UsageFile × List FsOp :=
  let u' := updateUsageRecord file curDay curMonth
  (some (some u'), getUsageOps file ++ [.writeUsage u'])

/-! ## Engines and model mapping — `src/engines/autoEngine.js` -/

/-- The engines `callAuto` can place in its candidate list. -/
inductive Engine where
  | groq
  | openai
  | huggingface
  | freetier
deriving DecidableEq, Repr

/-- The engine's name as used in error/log strings. -/
def engineName : Engine → String
  | .groq => "groq"
  | .openai => "openai"
  | .huggingface => "huggingface"
  | .freetier => "freetier"

/-- The `defaultModels` object used by `mapModelToEngine` when no model was
requested (lines 171–176). -/
def defaultModels : Engine → String
  | .groq => "llama-3.3-70b-versatile"
  | .openai => "gpt-4o-mini"
  | .huggingface => "meta-llama/Llama-3.1-70B-Instruct"
  | .freetier => "llama-3.3-70b-versatile"

/-- The `engineDefaults` object used on a mapping miss (lines 194–199);
duplicated verbatim from `defaultModels` in the source. -/
def engineDefaults : Engine → String
  | .groq => "llama-3.3-70b-versatile"
  | .openai => "gpt-4o-mini"
  | .huggingface => "meta-llama/Llama-3.1-70B-Instruct"
  | .freetier => "llama-3.3-70b-versatile"

/-- `modelMappings[model]?.[targetEngine]` — the static mapping table of
`mapModelToEngine` (lines 121–167). `none` exactly when `model` is not one
of the seven canonical keys (every row defines all four engines). -/
def modelMappingLookup (model : String) (e : Engine) : Option String :=
  if model = "llama-3.3-70b-versatile" then
    some (match e with
      | .groq => "llama-3.3-70b-versatile"
      | .openai => "gpt-4o-mini"
      | .huggingface => "meta-llama/Llama-3.1-70B-Instruct"
      | .freetier => "llama-3.3-70b-versatile")
  else if model = "llama-3.1-70b-versatile" then
    some (match e with
      | .groq => "llama-3.1-70b-versatile"
      | .openai => "gpt-4o-mini"
      | .huggingface => "meta-llama/Llama-3.1-70B-Instruct"
      | .freetier => "llama-3.3-70b-versatile")
  else if model = "mixtral-8x7b-32768" then
    some (match e with
      | .groq => "mixtral-8x7b-32768"
      | .openai => "gpt-4o-mini"
      | .huggingface => "mistralai/Mixtral-8x7B-Instruct-v0.1"
      | .freetier => "llama-3.3-70b-versatile")
  else if model = "gpt-4o" then
    some (match e with
      | .groq => "llama-3.3-70b-versatile"
      | .openai => "gpt-4o"
      | .huggingface => "meta-llama/Llama-3.1-70B-Instruct"
      | .freetier => "llama-3.3-70b-versatile")
  else if model = "gpt-4o-mini" then
    some (match e with
      | .groq => "llama-3.3-70b-versatile"
      | .openai => "gpt-4o-mini"
      | .huggingface => "meta-llama/Llama-3.1-70B-Instruct"
      | .freetier => "llama-3.3-70b-versatile")
  else if model = "gpt-4" then
    some (match e with
      | .groq => "llama-3.3-70b-versatile"
      | .openai => "gpt-4"
      | .huggingface => "meta-llama/Llama-3.1-70B-Instruct"
      | .freetier => "llama-3.3-70b-versatile")
  else if model = "gpt-3.5-turbo" then
    some (match e with
      | .groq => "llama-3.1-8b-instant"
      | .openai => "gpt-3.5-turbo"
      | .huggingface => "meta-llama/Llama-3.1-8B-Instruct"
      | .freetier => "llama-3.3-70b-versatile")
  else none

/-- `mapModelToEngine(engineConfig, targetEngine)` (lines 117–211), reduced
to its observable behavior: the resolved model placed in the returned
config, and whether the informational fallthrough notice was printed.
A missing or empty `engineConfig.model` is falsy in JS, hence the
`getD ""` test. -/
def mapModelToEngine (model? : Option String) (e : Engine) : String × Bool :=
  let m := model?.getD ""
  if m = "" then
    -- If no model specified, use engine defaults
    (defaultModels e, false)
  else
    match modelMappingLookup m e with
    | some mapped => (mapped, false)
    | none =>
      -- If no mapping found, use engine-specific defaults
      (engineDefaults e, engineDefaults e != m)

/-- `isRetryableError` (lines 93–106). `error.code` is `undefined` for the
plain `Error`s thrown by the engines, and none of the patterns match the
string `"undefined"`, so only the message participates. -/
def isRetryableError (msg : String) : Bool :=
  ["429", "503", "502", "timeout", "network", "temporarily"].any
    fun pat => containsCI pat.toList msg.toList

/-- `getErrorType` (lines 108–115). -/
def getErrorType (msg : String) : String :=
  if containsCI "429".toList msg.toList then "rate limited"
  else if containsCI "503".toList msg.toList then "service unavailable"
  else if containsCI "502".toList msg.toList then "server error"
  else if containsCI "timeout".toList msg.toList then "timeout"
  else if containsCI "network".toList msg.toList then "network error"
  else "error"

/-- The ordered candidate list built by `callAuto` (lines 14–22) from the
presence of the three API keys; `freetier` is always the terminal
candidate. -/
def buildEngines (kGroq kOpenai kHf : Bool) : List Engine :=
  (if kGroq then [Engine.groq] else []) ++
  (if kOpenai then [Engine.openai] else []) ++
  (if kHf then [Engine.huggingface] else []) ++
  [Engine.freetier]

/-- The per-engine "Trying …" console line. `huggingface` has no `case` in
the dispatch `switch`, so it is skipped silently: nothing is printed and no
adapter is invoked for it. -/
def tryLineStr : Engine → String
  | .groq => "🚀 Trying Groq API..."
  | .openai => "🤖 Trying OpenAI API..."
  | .freetier => "🆓 Trying free tier..."
  | .huggingface => ""

/-- The console line printed when an engine's call throws (lines 53–59). -/
def failLine (e : Engine) (msg : String) : String :=
  if isRetryableError msg then
    "⚠️  " ++ engineName e ++ " temporarily unavailable (" ++ getErrorType msg
      ++ "), trying next option..."
  else
    "❌ " ++ engineName e ++ " failed: " ++ msg

/-- The error thrown when every engine failed and `hasAnyApiKey()` is false
(lines 79–82). -/
def noKeysFailedMsg : String :=
  "All engines failed. Consider setting up API keys for more reliable access:\n    \n🔧 Quick setup: create-task setup\n💡 Free options: Groq (1000 requests/day) or OpenAI trial credits"

/-- The error thrown when every engine failed and `hasAnyApiKey()` is true
(lines 84–89). -/
def allConfiguredFailedMsg : String :=
  "All configured engines failed. This might be temporary - try again in a few minutes.\n    \n💡 Suggestions:\n• Check your API key quotas/limits\n• Try a specific engine: create-task --engine openai\n• Use free tier: create-task --engine freetier"

/-- Side effects of a `callAuto` run: the engines whose adapters were
actually invoked, in order, and the console lines printed. -/
structure AutoTrace where
  invoked : List Engine
  console : List String
deriving DecidableEq, Repr

/-- The `for (const engine of engines)` loop of `callAuto` (lines 30–71).
`call e model` abstracts the engine adapters (`callGroq` / `callOpenAI` /
`callFreeTier`): `.ok` a structured result, `.error` the thrown message.
Accumulators mirror `errors`, the invocation order and the console.
The source `break`s when `freetier` fails as the last list entry
(`engines.indexOf(engine) === engines.length - 1`; the built lists contain
`freetier` exactly once, at the end, so the index test is the
`rest = []` test here); both exits produce the same exhausted state. -/
def runEngines {α : Type} (call : Engine → String → Except String α)
    (model? : Option String) :
    List Engine → List String → List Engine → List String →
    Option α × List String × List Engine × List String
  | [], errs, inv, con => (none, errs, inv, con)
  | e :: rest, errs, inv, con =>
    match e with
    | .huggingface =>
      -- no `case "huggingface"` in the switch: fall through to next engine
      runEngines call model? rest errs inv con
    | _ =>
      let model := (mapModelToEngine model? e).1
      let con1 := con ++ [tryLineStr e]
      match call e model with
      | .ok v => (some v, errs, inv ++ [e], con1)
      | .error msg =>
        let errs1 := errs ++ [engineName e ++ ": " ++ msg]
        let con2 := con1 ++ [failLine e msg]
        if e = Engine.freetier && rest.isEmpty then (none, errs1, inv ++ [e], con2)
        else runEngines call model? rest errs1 (inv ++ [e]) con2

/-- `callAuto(diff, engineConfig)` (lines 6–91): builds the candidate list
from key presence, runs the loop, and on exhaustion prints the failure list
and throws one of the two remediation errors depending on
`hasAnyApiKey()`. -/
def callAuto {α : Type} (kGroq kOpenai kHf hasAnyKey : Bool)
    (model? : Option String) (call : Engine → String → Except String α) :
    Except String α × AutoTrace :=
  let engines := buildEngines kGroq kOpenai kHf
  let con0 : List String :=
    if engines = [Engine.freetier] then ["🆓 No API keys configured, using free tier..."]
    else []
  match runEngines call model? engines [] [] con0 with
  | (some v, _, inv, con) => (.ok v, ⟨inv, con⟩)
  | (none, errs, inv, con) =>
    let con1 := con ++ ["\n❌ All engines failed:"] ++ errs.map (fun s => "   • " ++ s)
    if hasAnyKey then (.error allConfiguredFailedMsg, ⟨inv, con1⟩)
    else (.error noKeysFailedMsg, ⟨inv, con1⟩)

/-! ## COMMIT-mode response parsing — `src/engines/groqEngine.js` 218–268 -/

/-- The structured commit record produced by `generateCommitMessage`. -/
structure CommitResult where
  type : List Char
  scope : List Char
  description : List Char
  body : List Char
  breaking : Bool
  breakingDescription : List Char
deriving DecidableEq, Repr

/-- The initial result object (lines 222–229): `type: type || "feat"`,
`scope: scope || ""`, `breaking: breaking || false`. An absent or empty
hint is falsy in JS, so hints are passed as (possibly empty) strings. -/
def initCommit (hType hScope : List Char) (hBreaking : Bool) : CommitResult :=
  { type := if hType.isEmpty then "feat".toList else hType
    scope := hScope
    description := []
    body := []
    breaking := hBreaking
    breakingDescription := [] }

/-- One iteration of the `for (const line of lines)` scan
(lines 231–261). The five label prefixes are tested in source order;
they are pairwise exclusive (they differ within their first two
characters). -/
def commitStep (st : CommitResult) (line : List Char) : CommitResult :=
  let tl := jsTrim line
  if prefixB "TYPE:".toList tl then
    let extracted := jsToLower (jsTrim (tl.drop 5))
    { st with type := if extracted.isEmpty then st.type else extracted }
  else if prefixB "SCOPE:".toList tl then
    let extracted := jsTrim (tl.drop 6)
    { st with scope :=
        if extracted = "empty".toList || extracted = "none".toList then [] else extracted }
  else if prefixB "DESCRIPTION:".toList tl then
    { st with description := jsTrim (tl.drop 12) }
  else if prefixB "BODY:".toList tl then
    let bodyContent := jsTrim (tl.drop 5)
    { st with body :=
        if bodyContent = "empty".toList || bodyContent = "none".toList then [] else bodyContent }
  else if prefixB "BREAKING:".toList tl then
    let breakingContent := jsTrim (tl.drop 9)
    if !breakingContent.isEmpty && breakingContent ≠ "empty".toList
        && breakingContent ≠ "none".toList then
      { st with breakingDescription := breakingContent, breaking := true }
    else st
  else st

/-- The whole label scan over `content.split("\n")`. -/
def scanCommit (hType hScope : List Char) (hBreaking : Bool)
    (lines : List (List Char)) : CommitResult :=
  lines.foldl commitStep (initCommit hType hScope hBreaking)

/-- `generateCommitMessage`'s parse of the provider completion
(`content = … .content.trim()`, scan, then the required-field check at
lines 263–266: `if (!result.description) throw`). -/
def parseCommitResponse (hType hScope : List Char) (hBreaking : Bool)
    (raw : List Char) : Except (List Char) CommitResult :=
  let content := jsTrim raw
  let result := scanCommit hType hScope hBreaking (splitNl content)
  if result.description.isEmpty then
    .error "Failed to generate commit description".toList
  else .ok result

/-! ### Per-field specification views of the commit scan

Each is the field's value as the claims describe it: the contribution of
the *last* matching label line, with the source's normalizations. They are
proved to coincide with the projections of `scanCommit`. -/

/-- TYPE field step: lower-cased content of a `TYPE:` line when non-empty,
else the accumulator. No enum validation is applied. -/
def typeStep (acc : List Char) (l : List Char) : List Char :=
  let tl := jsTrim l
  if prefixB "TYPE:".toList tl then
    let extracted := jsToLower (jsTrim (tl.drop 5))
    if extracted.isEmpty then acc else extracted
  else acc

/-- `"empty"` / `"none"` → true-empty normalization. -/
def normEmptyNone (v : List Char) : List Char :=
  if v = "empty".toList || v = "none".toList then [] else v

/-- SCOPE field step: normalized content of a `SCOPE:` line, else the
accumulator. -/
def scopeStep (acc : List Char) (l : List Char) : List Char :=
  let tl := jsTrim l
  if prefixB "SCOPE:".toList tl then normEmptyNone (jsTrim (tl.drop 6)) else acc

/-- DESCRIPTION field step: content of a `DESCRIPTION:` line, else the
accumulator. -/
def descStep (acc : List Char) (l : List Char) : List Char :=
  let tl := jsTrim l
  if prefixB "DESCRIPTION:".toList tl then jsTrim (tl.drop 12) else acc

/-- BODY field step: normalized content of a `BODY:` line, else the
accumulator. -/
def bodyStep (acc : List Char) (l : List Char) : List Char :=
  let tl := jsTrim l
  if prefixB "BODY:".toList tl then normEmptyNone (jsTrim (tl.drop 5)) else acc

/-- A `BREAKING:` line content that actually sets the breaking flag. -/
def breakingSets (v : List Char) : Bool :=
  !v.isEmpty && v ≠ "empty".toList && v ≠ "none".toList

/-- BREAKING step on the (flag, description) pair. -/
def breakStep (acc : Bool × List Char) (l : List Char) : Bool × List Char :=
  let tl := jsTrim l
  if prefixB "BREAKING:".toList tl then
    let v := jsTrim (tl.drop 9)
    if breakingSets v then (true, v) else acc
  else acc

/-- Value of the TYPE field over a whole response: contribution of the last
`TYPE:` line with non-empty content, else the starting default. -/
def lastTypeSpec (lines : List (List Char)) (d : List Char) : List Char :=
  lines.foldl typeStep d

/-- Value of the SCOPE field over a whole response. -/
def lastScopeSpec (lines : List (List Char)) (d : List Char) : List Char :=
  lines.foldl scopeStep d

/-- Value of the DESCRIPTION field over a whole response: content of the
last `DESCRIPTION:` line, else the starting default. -/
def lastDescSpec (lines : List (List Char)) (d : List Char) : List Char :=
  lines.foldl descStep d

/-- Value of the BODY field over a whole response. -/
def lastBodySpec (lines : List (List Char)) (d : List Char) : List Char :=
  lines.foldl bodyStep d

/-- The (breaking flag, breaking description) pair over a whole response:
flag set by the starting default or by any `BREAKING:` line with
substantive content; description from the last such line. -/
def lastBreakingSpec (lines : List (List Char)) (d : Bool × List Char) : Bool × List Char :=
  lines.foldl breakStep d

/-! ## `formatCommitMessage` — `src/createCommit.js` 109–205 -/

/-- The `validTypes` list (lines 151–162). -/
def validTypes : List (List Char) :=
  ["feat", "fix", "docs", "style", "refactor", "perf", "test", "chore", "ci",
   "build"].map String.toList

/-- `const commitType = validTypes.includes(type) ? type : "chore"`
(line 163). -/
def commitTypeOf (t : List Char) : List Char :=
  if validTypes.contains t then t else "chore".toList

/-- `scope.trim().replace(/[()]/g, "")` (line 169). -/
def cleanScopeOf (s : List Char) : List Char :=
  (jsTrim s).filter fun c => !(c = '(' || c = ')')

/-- `formatCommitMessage(commitData)` specialized to a structured
`CommitResult` argument (the string / `{commit,message}` shapes of the
source's defensive early branches cannot arise for this record type; the
two reachable guards at lines 132 and 138 are kept). -/
def formatCommitMessage (r : CommitResult) : List Char :=
  if !r.description.isEmpty && r.type.isEmpty then jsTrim r.description
  else if r.type.isEmpty && r.description.isEmpty then "chore: update code".toList
  else
    let commitType := commitTypeOf r.type
    let msg1 := commitType ++
      (if !(jsTrim r.scope).isEmpty then '(' :: cleanScopeOf r.scope ++ [')'] else [])
    let msg2 := msg1 ++ (if r.breaking then ['!'] else [])
    let desc := if r.description.isEmpty then "update code".toList else jsTrim r.description
    let msg3 := msg2 ++ ": ".toList ++ desc
    let msg4 := msg3 ++
      (if !(jsTrim r.body).isEmpty then "\n\n".toList ++ jsTrim r.body else [])
    msg4 ++
      (if r.breaking && !(jsTrim r.breakingDescription).isEmpty then
        "\n\nBREAKING CHANGE: ".toList ++ jsTrim r.breakingDescription
      else [])

/-! ## TASK-mode response parsing — `src/engines/groqEngine.js` 96–149 -/

/-- The structured task record (`{ title, summary, tech }`). -/
structure TaskResult where
  title : List Char
  summary : List Char
  tech : List Char
deriving DecidableEq, Repr

/-- The current accumulating section (`currentSection`): `""`, `"summary"`
or `"tech"`. -/
inductive Cur where
  | blank
  | summary
  | tech
deriving DecidableEq, Repr

/-- `currentSection` truthiness. -/
def Cur.isSet : Cur → Bool
  | .blank => false
  | _ => true

/-- The scan's mutable state: the result object, `currentSection` and
`currentContent`. -/
structure TaskScanState where
  result : TaskResult
  cur : Cur
  acc : List (List Char)
deriving DecidableEq, Repr

/-- `result[currentSection] = currentContent.join("\n").trim()` guarded by
`currentSection && currentContent.length > 0` — performed at each label
line and once after the loop. -/
def flushTask (st : TaskScanState) : TaskScanState :=
  match st.cur with
  | .blank => st
  | .summary =>
    if st.acc.isEmpty then st
    else { st with result := { st.result with summary := jsTrim (intercalNl st.acc) } }
  | .tech =>
    if st.acc.isEmpty then st
    else { st with result := { st.result with tech := jsTrim (intercalNl st.acc) } }

/-- One iteration of the scan loop (lines 104–131). -/
def taskStep (st : TaskScanState) (line : List Char) : TaskScanState :=
  let tl := jsTrim line
  if prefixB "TITLE:".toList tl then
    let st1 := flushTask st
    { st1 with result := { st1.result with title := jsTrim (tl.drop 6) },
               cur := .blank, acc := [] }
  else if prefixB "SUMMARY:".toList tl then
    let st1 := flushTask st
    let summaryContent := jsTrim (tl.drop 8)
    { st1 with cur := .summary,
               acc := if summaryContent.isEmpty then [] else [summaryContent] }
  else if prefixB "TECHNICAL:".toList tl then
    let st1 := flushTask st
    let techContent := jsTrim (tl.drop 10)
    { st1 with cur := .tech,
               acc := if techContent.isEmpty then [] else [techContent] }
  else if st.cur.isSet && !tl.isEmpty then
    { st with acc := st.acc ++ [tl] }
  else st

/-- The whole line scan including the final flush (lines 99–136). -/
def scanTask (lines : List (List Char)) : TaskResult :=
  (flushTask (lines.foldl taskStep ⟨⟨[], [], []⟩, .blank, []⟩)).result

/-! ### The fallback regex pass (lines 138–147)

`content.match(/TITLE:\s*(.+)/)`,
`content.match(/SUMMARY:\s*([\s\S]*?)(?=TECHNICAL:|$)/)` and
`content.match(/TECHNICAL:\s*([\s\S]*?)$/)`, modelled directly. -/

/-- The suffix following the first occurrence of `pat`, if any. -/
def dropAfterPat (pat : List Char) : List Char → Option (List Char)
  | [] => if pat.isEmpty then some [] else none
  | c :: t =>
    if prefixB pat (c :: t) then some ((c :: t).drop pat.length)
    else dropAfterPat pat t

/-- The prefix of `l` strictly before the first occurrence of `pat`
(all of `l` when `pat` does not occur). -/
def takeUntilPat (pat : List Char) : List Char → List Char
  | [] => []
  | c :: t => if prefixB pat (c :: t) then [] else c :: takeUntilPat pat t

/-- Matching `\s*(.+)` against `r` (the text after a `TITLE:` occurrence):
greedy `\s*`, then `.+` (≥ 1 non-newline character), with the regex
engine's backtracking into the whitespace run when nothing follows it. -/
def tryTitleRest (r : List Char) : Option (List Char) :=
  let w := r.takeWhile isWS
  let r' := r.dropWhile isWS
  if !r'.isEmpty then some (r'.takeWhile fun c => c ≠ '\n')
  else
    -- r is all whitespace: `.+` can still consume a trailing run of
    -- non-newline whitespace surrendered by `\s*`.
    match w.reverse.dropWhile (fun c => c = '\n') with
    | [] => none
    | c :: _ => some [c]

/-- The capture of `/TITLE:\s*(.+)/`: the engine retries at each later
occurrence of `TITLE:` until the rest of the pattern matches. -/
def jsTitleCapture : List Char → Option (List Char)
  | [] => none
  | c :: t =>
    if prefixB "TITLE:".toList (c :: t) then
      match tryTitleRest ((c :: t).drop 6) with
      | some cap => some cap
      | none => jsTitleCapture t
    else jsTitleCapture t

/-- The capture of `/SUMMARY:\s*([\s\S]*?)(?=TECHNICAL:|$)/`: after the
first `SUMMARY:`, skip whitespace, then the lazy capture runs to the first
`TECHNICAL:` (or the end); it always succeeds when the label occurs. -/
def jsSummaryCapture (l : List Char) : Option (List Char) :=
  match dropAfterPat "SUMMARY:".toList l with
  | none => none
  | some r => some (takeUntilPat "TECHNICAL:".toList (r.dropWhile isWS))

/-- The capture of `/TECHNICAL:\s*([\s\S]*?)$/`: everything after the first
`TECHNICAL:` and its following whitespace. -/
def jsTechCapture (l : List Char) : Option (List Char) :=
  match dropAfterPat "TECHNICAL:".toList l with
  | none => none
  | some r => some (r.dropWhile isWS)

/-- The three `if (…Match) result.… = …[1].trim()` assignments. -/
def applyFallback (content : List Char) (r : TaskResult) : TaskResult :=
  let r1 := match jsTitleCapture content with
    | some cap => { r with title := jsTrim cap }
    | none => r
  let r2 := match jsSummaryCapture content with
    | some cap => { r1 with summary := jsTrim cap }
    | none => r1
  match jsTechCapture content with
  | some cap => { r2 with tech := jsTrim cap }
  | none => r2

/-- The complete TASK-mode parse of a provider completion: trim
(`data.choices[0].message.content.trim()`), line scan, and the
second-chance pass when the scan produced neither summary nor technical
content (`if (!result.summary && !result.tech)`). Total by construction:
this code region contains no throw. -/
def parseTaskResponse (raw : List Char) : TaskResult :=
  let content := jsTrim raw
  let result := scanTask (splitNl content)
  if result.summary.isEmpty && result.tech.isEmpty then applyFallback content result
  else result

/-! ## Free-tier adapter — `src/engines/freeTierEngine.js` -/

/-- `FREE_TIER_LIMITS.daily` (line 6). -/
def freeTierDailyLimit : Nat := 10

/-- `FREE_TIER_LIMITS.monthly` (line 7). -/
def freeTierMonthlyLimit : Nat := 100

/-- `canUseFreeTier(usage)` (lines 142–147). -/
def canUseFreeTier (usage : UsageRec) : Bool :=
  usage.today < freeTierDailyLimit && usage.month < freeTierMonthlyLimit

/-- Observable side effects of a `callFreeTier` run: endpoints of HTTP
requests issued, usage-file writes performed, and whether the interactive
`interactiveSetup()` flow ran (it touches only the config file, never the
usage counters and never the remote completion endpoint). -/
structure FreeTrace where
  network : List String
  usageWrites : List UsageRec
  ranSetup : Bool
deriving DecidableEq, Repr

/-- `answer.toLowerCase().startsWith("n")`. -/
def answerIsNo (answer : String) : Bool :=
  prefixB "n".toList (jsToLower answer.toList)

/-- `callFreeTier(diff, engineConfig)` (lines 13–139). Parameters beyond
the file/clock state: `hasKey` = `hasAnyApiKey()`, `answer` = the readline
reply, `commitMode` = `engineConfig.commitMode`, and `netResp` = the
outcome of the single `fetch` to the community endpoint (`.error` models a
non-2xx response or transport failure, whose handling lands in the `catch`
block). The payload construction from the JSON body is abstracted as `α`. -/
def callFreeTier {α : Type} (file : UsageFile) (curDay curMonth : String)
    (hasKey : Bool) (answer : String) (commitMode : Bool)
    (netResp : Except String α) : Except String α × FreeTrace :=
  let usage := getUsage file curDay curMonth
  if !canUseFreeTier usage then
    if hasKey then
      (.error ("Free tier limit reached! \n\n📊 Usage: " ++ toString usage.today ++ "/"
        ++ toString freeTierDailyLimit ++ " requests today\n📅 Monthly: "
        ++ toString usage.month ++ "/" ++ toString freeTierMonthlyLimit
        ++ " requests this month\n\n💡 You have API keys configured! Use unlimited access:\n   ct --engine auto --staged\n\n🔧 Or configure more providers:\n   ct setup"),
       ⟨[], [], false⟩)
    else if !answerIsNo answer then
      (.error "Setup complete! Please run your command again.", ⟨[], [], true⟩)
    else
      (.error "Free tier limit reached. Run \"ct setup\" when ready to configure API keys.",
       ⟨[], [], false⟩)
  else
    let endpoint := if commitMode then "commit" else "task"
    match netResp with
    | .ok payload =>
      (.ok payload, ⟨[endpoint], [updateUsageRecord file curDay curMonth], false⟩)
    | .error _ =>
      -- the thrown fetch error is caught; the catch block prompts for setup
      if !answerIsNo answer then
        (.error "Setup complete! Please run your command again.", ⟨[endpoint], [], true⟩)
      else
        (.error "Free tier unavailable. Run \"ct setup\" to configure your own API key.",
         ⟨[endpoint], [], false⟩)

/-! ## Statement helpers -/

deriving instance DecidableEq for Except

/-- Whether an `Except` is the error case (a thrown JS error). -/
def isErrB {ε α : Type} : Except ε α → Bool
  | .error _ => true
  | .ok _ => false

/-- A single-line field value as it can sit on a label line: already
trimmed, non-empty, newline-free. -/
def taskFieldLineB (l : List Char) : Bool :=
  jsTrim l == l && !l.isEmpty && !l.contains '\n'

/-- A continuation line of a multi-line section body: a field line that is
not itself a label line. -/
def taskContentLineB (l : List Char) : Bool :=
  taskFieldLineB l && !prefixB "TITLE:".toList l && !prefixB "SUMMARY:".toList l
    && !prefixB "TECHNICAL:".toList l

/-- A well-formed TASK response: a `TITLE:` line, a `SUMMARY:` section of
one or more lines, and a `TECHNICAL:` section of one or more lines. -/
def mkTaskResponse (t s0 : List Char) (srest : List (List Char))
    (t0 : List Char) (trest : List (List Char)) : List Char :=
  intercalNl ((("TITLE: ".toList ++ t) :: ("SUMMARY: ".toList ++ s0) :: srest)
    ++ ("TECHNICAL: ".toList ++ t0) :: trest)

/-! # Theorems -/

/-! ## Helper lemmas -/

theorem labelTYPE : "TYPE:".toList = 'T' :: "YPE:".toList := rfl

theorem labelSCOPE : "SCOPE:".toList = 'S' :: "COPE:".toList := rfl

theorem labelDESC : "DESCRIPTION:".toList = 'D' :: "ESCRIPTION:".toList := rfl

theorem labelBODY : "BODY:".toList = 'B' :: 'O' :: "DY:".toList := rfl

theorem labelBREAKING : "BREAKING:".toList = 'B' :: 'R' :: "EAKING:".toList := rfl

theorem labelTITLE : "TITLE:".toList = 'T' :: "ITLE:".toList := rfl

theorem labelSUMMARY : "SUMMARY:".toList = 'S' :: "UMMARY:".toList := rfl

theorem labelTECH : "TECHNICAL:".toList = 'T' :: 'E' :: "CHNICAL:".toList := rfl

/-- Two prefixes whose first characters differ cannot both match. -/
theorem prefixB_fst_excl {a b : Char} (pa pb tl : List Char) (hab : b ≠ a)
    (h : prefixB (a :: pa) tl = true) : prefixB (b :: pb) tl = false := by
  cases tl with
  | nil => simp [prefixB] at h
  | cons c t =>
    simp only [prefixB, Bool.and_eq_true, beq_iff_eq] at h
    have hb : (b == c) = false := beq_eq_false_iff_ne.mpr (h.1 ▸ hab)
    simp [prefixB, hb]

/-- Two prefixes agreeing on the first character but differing on the
second cannot both match. -/
theorem prefixB_snd_excl {a b c : Char} (pa pb tl : List Char) (hbc : c ≠ b)
    (h : prefixB (a :: b :: pa) tl = true) : prefixB (a :: c :: pb) tl = false := by
  cases tl with
  | nil => simp [prefixB] at h
  | cons d t =>
    cases t with
    | nil => simp [prefixB] at h
    | cons d2 t2 =>
      simp only [prefixB, Bool.and_eq_true, beq_iff_eq] at h
      have hb : (c == d2) = false := beq_eq_false_iff_ne.mpr (h.2.1 ▸ hbc)
      simp [prefixB, hb]

/-- A list is a prefix of itself extended by anything. -/
theorem prefixB_self_append (p rest : List Char) : prefixB p (p ++ rest) = true := by
  induction p with
  | nil => rfl
  | cons a pa ih => simp [prefixB, ih]

/-- One commit-scan step acts on each field exactly as the per-field step
functions do (the five label prefixes are pairwise exclusive). -/
theorem commitStep_eq (st : CommitResult) (l : List Char) :
    commitStep st l =
      { type := typeStep st.type l
        scope := scopeStep st.scope l
        description := descStep st.description l
        body := bodyStep st.body l
        breaking := (breakStep (st.breaking, st.breakingDescription) l).1
        breakingDescription := (breakStep (st.breaking, st.breakingDescription) l).2 } := by
  by_cases h1 : prefixB ['T', 'Y', 'P', 'E', ':'] (jsTrim l) = true
  · have e2 : prefixB ['S', 'C', 'O', 'P', 'E', ':'] (jsTrim l) = false :=
      prefixB_fst_excl _ _ _ (by decide) h1
    have e3 : prefixB ['D', 'E', 'S', 'C', 'R', 'I', 'P', 'T', 'I', 'O', 'N', ':']
        (jsTrim l) = false := prefixB_fst_excl _ _ _ (by decide) h1
    have e4 : prefixB ['B', 'O', 'D', 'Y', ':'] (jsTrim l) = false :=
      prefixB_fst_excl _ _ _ (by decide) h1
    have e5 : prefixB ['B', 'R', 'E', 'A', 'K', 'I', 'N', 'G', ':'] (jsTrim l) = false :=
      prefixB_fst_excl _ _ _ (by decide) h1
    simp [commitStep, typeStep, scopeStep, descStep, bodyStep, breakStep,
      h1, e2, e3, e4, e5]
  · by_cases h2 : prefixB ['S', 'C', 'O', 'P', 'E', ':'] (jsTrim l) = true
    · have e3 : prefixB ['D', 'E', 'S', 'C', 'R', 'I', 'P', 'T', 'I', 'O', 'N', ':']
          (jsTrim l) = false := prefixB_fst_excl _ _ _ (by decide) h2
      have e4 : prefixB ['B', 'O', 'D', 'Y', ':'] (jsTrim l) = false :=
        prefixB_fst_excl _ _ _ (by decide) h2
      have e5 : prefixB ['B', 'R', 'E', 'A', 'K', 'I', 'N', 'G', ':'] (jsTrim l) = false :=
        prefixB_fst_excl _ _ _ (by decide) h2
      simp [commitStep, typeStep, scopeStep, descStep, bodyStep, breakStep,
        normEmptyNone, h1, h2, e3, e4, e5]
    · by_cases h3 : prefixB ['D', 'E', 'S', 'C', 'R', 'I', 'P', 'T', 'I', 'O', 'N', ':']
          (jsTrim l) = true
      · have e4 : prefixB ['B', 'O', 'D', 'Y', ':'] (jsTrim l) = false :=
          prefixB_fst_excl _ _ _ (by decide) h3
        have e5 : prefixB ['B', 'R', 'E', 'A', 'K', 'I', 'N', 'G', ':'] (jsTrim l) = false :=
          prefixB_fst_excl _ _ _ (by decide) h3
        simp [commitStep, typeStep, scopeStep, descStep, bodyStep, breakStep,
          h1, h2, h3, e4, e5]
      · by_cases h4 : prefixB ['B', 'O', 'D', 'Y', ':'] (jsTrim l) = true
        · have e5 : prefixB ['B', 'R', 'E', 'A', 'K', 'I', 'N', 'G', ':'] (jsTrim l) = false :=
            prefixB_snd_excl _ _ _ (by decide) h4
          simp [commitStep, typeStep, scopeStep, descStep, bodyStep, breakStep,
            normEmptyNone, h1, h2, h3, h4, e5]
        · by_cases h5 : prefixB ['B', 'R', 'E', 'A', 'K', 'I', 'N', 'G', ':'] (jsTrim l) = true
          · simp [commitStep, typeStep, scopeStep, descStep, bodyStep, breakStep,
              breakingSets, h1, h2, h3, h4, h5]
            split <;> simp
          · simp [commitStep, typeStep, scopeStep, descStep, bodyStep, breakStep,
              h1, h2, h3, h4, h5]

/-- The commit scan computes, field by field, the last-matching-label
values described by the specification views. -/
theorem scanCommit_fields (lines : List (List Char)) : ∀ st : CommitResult,
    lines.foldl commitStep st =
      { type := lastTypeSpec lines st.type
        scope := lastScopeSpec lines st.scope
        description := lastDescSpec lines st.description
        body := lastBodySpec lines st.body
        breaking := (lastBreakingSpec lines (st.breaking, st.breakingDescription)).1
        breakingDescription :=
          (lastBreakingSpec lines (st.breaking, st.breakingDescription)).2 } := by
  induction lines with
  | nil =>
    intro st
    simp [lastTypeSpec, lastScopeSpec, lastDescSpec, lastBodySpec, lastBreakingSpec]
  | cons l ls ih =>
    intro st
    rw [List.foldl_cons, ih (commitStep st l), commitStep_eq st l]
    simp [lastTypeSpec, lastScopeSpec, lastDescSpec, lastBodySpec, lastBreakingSpec]

/-- `prefixB` in terms of list decomposition. -/
theorem prefixB_iff (p : List Char) : ∀ l, prefixB p l = true ↔ ∃ t, l = p ++ t := by
  induction p with
  | nil => intro l; simp [prefixB]
  | cons a pa ih =>
    intro l
    cases l with
    | nil => simp [prefixB]
    | cons b bs =>
      simp only [prefixB, Bool.and_eq_true, beq_iff_eq, ih bs, List.cons_append,
        List.cons.injEq]
      constructor
      · rintro ⟨rfl, t, rfl⟩; exact ⟨t, rfl, rfl⟩
      · rintro ⟨t, rfl, rfl⟩; exact ⟨rfl, t, rfl⟩

/-- `containsSub` in terms of list decomposition. -/
theorem containsSub_iff (pat : List Char) : ∀ l,
    containsSub pat l = true ↔ ∃ s t, l = s ++ pat ++ t := by
  intro l
  induction l with
  | nil =>
    simp only [containsSub, List.isEmpty_iff]
    constructor
    · rintro rfl; exact ⟨[], [], rfl⟩
    · rintro ⟨s, t, h⟩
      have h' := h.symm
      simp only [List.append_assoc, List.append_eq_nil] at h'
      exact h'.2.1
  | cons c t ih =>
    simp only [containsSub, Bool.or_eq_true, prefixB_iff, ih]
    constructor
    · rintro (⟨u, hu⟩ | ⟨s, u, hu⟩)
      · exact ⟨[], u, by simpa using hu⟩
      · exact ⟨c :: s, u, by simp [hu]⟩
    · rintro ⟨s, u, hu⟩
      cases s with
      | nil => exact Or.inl ⟨u, by simpa using hu⟩
      | cons a s' =>
        simp only [List.cons_append, List.cons.injEq] at hu
        exact Or.inr ⟨s', u, hu.2⟩

/-- A string containing `pat` as a substring keeps containing it inside any
larger string. -/
theorem containsSub_of_sub (pat m l s t : List Char) (hm : containsSub pat m = true)
    (hl : l = s ++ m ++ t) : containsSub pat l = true := by
  obtain ⟨a, b, hab⟩ := (containsSub_iff pat m).mp hm
  exact (containsSub_iff pat l).mpr ⟨s ++ a, b ++ t, by simp [hl, hab, List.append_assoc]⟩

/-- `jsTrimRight` keeps a prefix of the string. -/
theorem jsTrimRight_decomp (l : List Char) : ∃ t, l = jsTrimRight l ++ t := by
  refine ⟨(l.reverse.takeWhile isWS).reverse, ?_⟩
  unfold jsTrimRight
  conv_lhs => rw [← l.reverse_reverse, ← List.takeWhile_append_dropWhile (p := isWS)
    (l := l.reverse)]
  rw [List.reverse_append]

/-- The trimmed string sits inside the original. -/
theorem jsTrim_decomp (l : List Char) : ∃ s t, l = s ++ jsTrim l ++ t := by
  obtain ⟨t, ht⟩ := jsTrimRight_decomp l
  refine ⟨(jsTrimRight l).takeWhile isWS, t, ?_⟩
  conv_lhs => rw [ht, ← List.takeWhile_append_dropWhile (p := isWS) (l := jsTrimRight l)]
  rfl

/-- `splitNl` never returns the empty list. -/
theorem splitNl_ne_nil (c : List Char) : splitNl c ≠ [] := by
  cases c with
  | nil => simp [splitNl]
  | cons a t =>
    unfold splitNl
    by_cases h : a = '\n'
    · simp [h]
    · simp only [if_neg h]
      cases splitNl t <;> simp

/-- Joining the split lines with newlines restores the string. -/
theorem splitNl_join (c : List Char) : intercalNl (splitNl c) = c := by
  induction c with
  | nil => rfl
  | cons a t ih =>
    unfold splitNl
    by_cases h : a = '\n'
    · subst h
      simp only [if_pos rfl]
      have hne := splitNl_ne_nil t
      cases hsp : splitNl t with
      | nil => exact absurd hsp hne
      | cons h2 r =>
        rw [hsp] at ih
        simpa [intercalNl] using ih
    · simp only [if_neg h]
      have hne := splitNl_ne_nil t
      cases hsp : splitNl t with
      | nil => exact absurd hsp hne
      | cons h2 r =>
        rw [hsp] at ih
        cases r with
        | nil => simpa [intercalNl] using ih
        | cons r0 rr => simpa [intercalNl] using ih

/-- Every member of a newline-join is an infix of it. -/
theorem mem_intercal_decomp (line : List Char) : ∀ ls : List (List Char),
    line ∈ ls → ∃ s t, intercalNl ls = s ++ line ++ t := by
  intro ls
  induction ls with
  | nil => intro h; exact absurd h (List.not_mem_nil line)
  | cons l ls' ih =>
    intro h
    rcases List.mem_cons.mp h with rfl | hmem
    · cases ls' with
      | nil => exact ⟨[], [], by simp [intercalNl]⟩
      | cons l2 lr => exact ⟨[], '\n' :: intercalNl (l2 :: lr), by simp [intercalNl]⟩
    · obtain ⟨s, t, hst⟩ := ih hmem
      cases ls' with
      | nil => exact absurd hmem (List.not_mem_nil line)
      | cons l2 lr =>
        exact ⟨l ++ '\n' :: s, t, by simp [intercalNl, hst, List.append_assoc]⟩

/-- Every line produced by `splitNl` is an infix of the split string. -/
theorem mem_splitNl_decomp (line c : List Char) (h : line ∈ splitNl c) :
    ∃ s t, c = s ++ line ++ t := by
  obtain ⟨s, t, hst⟩ := mem_intercal_decomp line (splitNl c) h
  exact ⟨s, t, by rw [← splitNl_join c, hst]⟩

/-- If a label matches at the head of some trimmed line of the trimmed
content, the label occurs in the raw string. -/
theorem containsSub_of_line_label (pat raw line : List Char)
    (hline : line ∈ splitNl (jsTrim raw))
    (hp : prefixB pat (jsTrim line) = true) : containsSub pat raw = true := by
  obtain ⟨u, hu⟩ := (prefixB_iff pat (jsTrim line)).mp hp
  obtain ⟨a, b, hab⟩ := jsTrim_decomp line
  obtain ⟨s, t, hst⟩ := mem_splitNl_decomp line (jsTrim raw) hline
  obtain ⟨s', t', hraw⟩ := jsTrim_decomp raw
  refine containsSub_of_sub pat (jsTrim raw) raw s' t' ?_ hraw
  refine containsSub_of_sub pat line (jsTrim raw) s t ?_ hst
  refine containsSub_of_sub pat (jsTrim line) line a b ?_ hab
  exact (containsSub_iff pat (jsTrim line)).mpr ⟨[], u, by simpa using hu⟩

/-- The scan is a no-op on lines none of which starts with a label. -/
theorem scanTask_no_labels (lines : List (List Char))
    (h : ∀ l ∈ lines, prefixB "TITLE:".toList (jsTrim l) = false ∧
      prefixB "SUMMARY:".toList (jsTrim l) = false ∧
      prefixB "TECHNICAL:".toList (jsTrim l) = false) :
    scanTask lines = ⟨[], [], []⟩ := by
  have hfold : lines.foldl taskStep ⟨⟨[], [], []⟩, .blank, []⟩ = ⟨⟨[], [], []⟩, .blank, []⟩ := by
    induction lines with
    | nil => rfl
    | cons l ls ih =>
      have hl := h l (by simp)
      have hl1 : prefixB ['T', 'I', 'T', 'L', 'E', ':'] (jsTrim l) = false := hl.1
      have hl2 : prefixB ['S', 'U', 'M', 'M', 'A', 'R', 'Y', ':'] (jsTrim l) = false := hl.2.1
      have hl3 : prefixB ['T', 'E', 'C', 'H', 'N', 'I', 'C', 'A', 'L', ':'] (jsTrim l) = false :=
        hl.2.2
      have hstep : taskStep ⟨⟨[], [], []⟩, .blank, []⟩ l = ⟨⟨[], [], []⟩, .blank, []⟩ := by
        simp [taskStep, hl1, hl2, hl3, Cur.isSet]
      rw [List.foldl_cons, hstep]
      exact ih fun q hq => h q (by simp [hq])
  unfold scanTask
  rw [hfold]
  rfl

/-- `/TITLE:\s*(.+)/` finds nothing when `TITLE:` does not occur. -/
theorem jsTitleCapture_none (c : List Char)
    (h : containsSub "TITLE:".toList c = false) : jsTitleCapture c = none := by
  induction c with
  | nil => rfl
  | cons a t ih =>
    simp only [containsSub, Bool.or_eq_false_iff] at h
    simp only [jsTitleCapture, h.1, Bool.false_eq_true, if_false]
    exact ih h.2

/-- The first-occurrence search fails when the pattern does not occur. -/
theorem dropAfterPat_none (pat c : List Char) (hpat : pat.isEmpty = false)
    (h : containsSub pat c = false) : dropAfterPat pat c = none := by
  induction c with
  | nil => simp [dropAfterPat, hpat]
  | cons a t ih =>
    simp only [containsSub, Bool.or_eq_false_iff] at h
    simp only [dropAfterPat, h.1, Bool.false_eq_true, if_false]
    exact ih h.2

/-! ### Trim and split lemmas for well-formed responses -/

theorem length_dropWhile_le (p : Char → Bool) (l : List Char) :
    (l.dropWhile p).length ≤ l.length := by
  induction l with
  | nil => simp
  | cons a t ih =>
    rw [List.dropWhile_cons]
    by_cases h : p a = true
    · simp only [h, if_true]
      exact Nat.le_trans ih (Nat.le_succ _)
    · simp [h]

theorem dropWhile_eq_self_of_length (p : Char → Bool) (l : List Char)
    (h : (l.dropWhile p).length = l.length) : l.dropWhile p = l := by
  cases l with
  | nil => rfl
  | cons a t =>
    rw [List.dropWhile_cons] at h ⊢
    by_cases hp : p a = true
    · exfalso
      rw [if_pos hp] at h
      have h2 := length_dropWhile_le p t
      rw [h] at h2
      simp at h2
    · simp [hp]

/-- A string equal to its own trim is equal to each one-sided trim. -/
theorem trim_parts (l : List Char) (h : jsTrim l = l) :
    jsTrimLeft l = l ∧ jsTrimRight l = l := by
  have h1 : (jsTrim l).length ≤ (jsTrimRight l).length := length_dropWhile_le _ _
  have h2 : (jsTrimRight l).length ≤ l.length := by
    unfold jsTrimRight
    rw [List.length_reverse]
    calc (l.reverse.dropWhile isWS).length ≤ l.reverse.length := length_dropWhile_le _ _
    _ = l.length := List.length_reverse l
  rw [h] at h1
  have hlen : (l.reverse.dropWhile isWS).length = l.reverse.length := by
    have : (jsTrimRight l).length = l.length := Nat.le_antisymm h2 h1
    unfold jsTrimRight at this
    rw [List.length_reverse] at this
    rw [this, List.length_reverse]
  have hright : jsTrimRight l = l := by
    unfold jsTrimRight
    rw [dropWhile_eq_self_of_length _ _ hlen, List.reverse_reverse]
  refine ⟨?_, hright⟩
  have := h
  unfold jsTrim at this
  rw [hright] at this
  exact this

theorem jsTrimLeft_eq_self_of_head (c : Char) (t : List Char) (hc : isWS c = false) :
    jsTrimLeft (c :: t) = c :: t := by
  simp [jsTrimLeft, List.dropWhile_cons, hc]

theorem jsTrimRight_eq_self_of_last (l : List Char) (d : Char) (rt : List Char)
    (hrev : l.reverse = d :: rt) (hd : isWS d = false) : jsTrimRight l = l := by
  unfold jsTrimRight
  rw [hrev]
  rw [List.dropWhile_cons]
  simp only [hd, Bool.false_eq_true, if_false]
  rw [← hrev, List.reverse_reverse]

/-- A string whose first and last characters are non-whitespace is its own
trim. -/
theorem jsTrim_eq_self_of_ends (x : List Char)
    (hhead : ∃ c rt, x = c :: rt ∧ isWS c = false)
    (hlast : ∃ d rt, x.reverse = d :: rt ∧ isWS d = false) : jsTrim x = x := by
  obtain ⟨c, rt, hx, hc⟩ := hhead
  obtain ⟨d, rt', hrevx, hd⟩ := hlast
  have hr := jsTrimRight_eq_self_of_last x d rt' hrevx hd
  unfold jsTrim
  rw [hr, hx]
  exact jsTrimLeft_eq_self_of_head c rt hc

/-- The head of a trimmed non-empty string is non-whitespace. -/
theorem trimmed_head (l : List Char) (c : Char) (t : List Char) (h : jsTrim l = l)
    (he : l = c :: t) : isWS c = false := by
  have h1 := (trim_parts l h).1
  unfold jsTrimLeft at h1
  rw [he, List.dropWhile_cons] at h1
  by_cases hc : isWS c = true
  · exfalso
    rw [if_pos hc] at h1
    have := length_dropWhile_le isWS t
    rw [h1] at this
    simp at this
  · simpa using hc

/-- The last character of a trimmed non-empty string is non-whitespace. -/
theorem trimmed_last (l : List Char) (h : jsTrim l = l) (hne : l ≠ []) :
    ∃ d rt, l.reverse = d :: rt ∧ isWS d = false := by
  have h2 := (trim_parts l h).2
  cases hrev : l.reverse with
  | nil => exact absurd (by simpa using congrArg List.reverse hrev) hne
  | cons d rt =>
    refine ⟨d, rt, rfl, ?_⟩
    by_cases hd : isWS d = true
    · exfalso
      unfold jsTrimRight at h2
      rw [hrev, List.dropWhile_cons, if_pos hd] at h2
      have hlen := congrArg List.length h2
      rw [List.length_reverse] at hlen
      have h3 := length_dropWhile_le isWS rt
      have h4 : l.length = rt.length + 1 := by
        rw [← List.length_reverse l, hrev]
        rfl
      omega
    · simpa using hd

/-- A whitespace character prepended to a trimmed non-empty string
disappears under trimming. -/
theorem jsTrim_ws_cons (c : Char) (t : List Char) (hc : isWS c = true)
    (ht : jsTrim t = t) (hne : t ≠ []) : jsTrim (c :: t) = t := by
  obtain ⟨d, rt, hrev, hd⟩ := trimmed_last t ht hne
  have hr : jsTrimRight (c :: t) = c :: t := by
    refine jsTrimRight_eq_self_of_last _ d (rt ++ [c]) ?_ hd
    rw [List.reverse_cons, hrev]
    rfl
  unfold jsTrim
  rw [hr]
  unfold jsTrimLeft
  rw [List.dropWhile_cons, if_pos hc]
  exact (trim_parts t ht).1

/-- A trimmed non-empty string survives trimming after any prefix ending in
its first character region: `label ++ t` with `label` starting non-ws. -/
theorem jsTrim_label_append (c : Char) (r t : List Char) (hc : isWS c = false)
    (ht : jsTrim t = t) (hne : t ≠ []) : jsTrim ((c :: r) ++ t) = (c :: r) ++ t := by
  obtain ⟨d, rt, hrev, hd⟩ := trimmed_last t ht hne
  refine jsTrim_eq_self_of_ends _ ⟨c, r ++ t, rfl, hc⟩ ⟨d, rt ++ (c :: r).reverse, ?_, hd⟩
  rw [List.reverse_append, hrev]
  rfl

/-- The newline-join of trimmed non-empty lines starts and ends with
non-whitespace, hence is its own trim. -/
theorem intercal_trim_id (ls : List (List Char)) (hne : ls ≠ [])
    (h : ∀ l ∈ ls, jsTrim l = l ∧ l ≠ []) : jsTrim (intercalNl ls) = intercalNl ls := by
  have hlast : ∀ ls' : List (List Char), ls' ≠ [] → (∀ l ∈ ls', jsTrim l = l ∧ l ≠ []) →
      ∃ d rt, (intercalNl ls').reverse = d :: rt ∧ isWS d = false := by
    intro ls'
    induction ls' with
    | nil => intro hn _; exact absurd rfl hn
    | cons l lr ih =>
      intro _ hall
      have hl := hall l (by simp)
      cases lr with
      | nil =>
        simp only [intercalNl]
        exact trimmed_last l hl.1 hl.2
      | cons l2 lrr =>
        obtain ⟨d, rt, hrev, hd⟩ := ih (by simp) (fun q hq => hall q (by simp [hq]))
        refine ⟨d, rt ++ '\n' :: l.reverse, ?_, hd⟩
        show (l ++ '\n' :: intercalNl (l2 :: lrr)).reverse = _
        rw [List.reverse_append, List.reverse_cons, hrev]
        simp
  obtain ⟨d, rt, hrev, hd⟩ := hlast ls hne h
  cases ls with
  | nil => exact absurd rfl hne
  | cons l lr =>
    have hl := h l (by simp)
    obtain ⟨c, t, hlc⟩ : ∃ c t, l = c :: t := by
      cases l with
      | nil => exact absurd rfl hl.2
      | cons c t => exact ⟨c, t, rfl⟩
    have hc := trimmed_head l c t hl.1 hlc
    refine jsTrim_eq_self_of_ends _ ⟨c, ?_, ?_, hc⟩ ⟨d, rt, hrev, hd⟩
    · exact t ++ (match lr with | [] => [] | _ :: _ => '\n' :: intercalNl lr)
    · cases lr with
      | nil => simp [intercalNl, hlc]
      | cons l2 lrr => simp [intercalNl, hlc]

/-- The trim of a string containing a non-whitespace character is
non-empty. -/
theorem jsTrim_ne_nil_of_mem (x : List Char) (c : Char) (hc : c ∈ x)
    (hws : isWS c = false) : jsTrim x ≠ [] := by
  have hsplit : x = jsTrimRight x ++ (x.reverse.takeWhile isWS).reverse := by
    unfold jsTrimRight
    conv_lhs => rw [← x.reverse_reverse,
      ← List.takeWhile_append_dropWhile isWS x.reverse]
    rw [List.reverse_append]
  have hc1 : c ∈ jsTrimRight x := by
    rw [hsplit] at hc
    rcases List.mem_append.mp hc with h | h
    · exact h
    · exfalso
      have h2 := List.mem_takeWhile_imp (List.mem_reverse.mp h)
      rw [hws] at h2
      exact Bool.noConfusion h2
  have hsplit2 : jsTrimRight x = (jsTrimRight x).takeWhile isWS ++ jsTrim x :=
    (List.takeWhile_append_dropWhile isWS (jsTrimRight x)).symm
  rcases List.mem_append.mp (hsplit2 ▸ hc1) with h | h
  · exact absurd (List.mem_takeWhile_imp h) (by simp [hws])
  · exact List.ne_nil_of_mem h

/-- `splitNl` of a newline-free string is that single line. -/
theorem splitNl_no_newline (l : List Char) (h : '\n' ∉ l) : splitNl l = [l] := by
  induction l with
  | nil => rfl
  | cons c t ih =>
    have hc : c ≠ '\n' := fun hc => h (by simp [hc])
    unfold splitNl
    rw [if_neg hc, ih (fun hm => h (by simp [hm]))]

/-- `splitNl` peels one newline-free line off a newline join. -/
theorem splitNl_cons_line (l rest : List Char) (h : '\n' ∉ l) :
    splitNl (l ++ '\n' :: rest) = l :: splitNl rest := by
  induction l with
  | nil => simp [splitNl]
  | cons c t ih =>
    have hc : c ≠ '\n' := fun hc => h (by simp [hc])
    show splitNl (c :: (t ++ '\n' :: rest)) = _
    rw [splitNl, if_neg hc, ih (fun hm => h (by simp [hm]))]

/-- `splitNl` inverts `intercalNl` on non-empty lists of newline-free
lines. -/
theorem splitNl_intercal (ls : List (List Char)) (hne : ls ≠ [])
    (h : ∀ l ∈ ls, '\n' ∉ l) : splitNl (intercalNl ls) = ls := by
  induction ls with
  | nil => exact absurd rfl hne
  | cons l lr ih =>
    cases lr with
    | nil => exact splitNl_no_newline l (h l (by simp))
    | cons l2 lrr =>
      show splitNl (l ++ '\n' :: intercalNl (l2 :: lrr)) = _
      rw [splitNl_cons_line l _ (h l (by simp))]
      rw [ih (by simp) (fun q hq => h q (by simp [hq]))]

/-- Unpacking a well-formed single-line field value. -/
theorem taskFieldLine_facts (l : List Char) (h : taskFieldLineB l = true) :
    jsTrim l = l ∧ l ≠ [] ∧ '\n' ∉ l := by
  simp only [taskFieldLineB, Bool.and_eq_true, beq_iff_eq, Bool.not_eq_true'] at h
  obtain ⟨⟨h1, h2⟩, h3⟩ := h
  refine ⟨h1, by simpa using h2, fun hm => ?_⟩
  have h4 : l.contains '\n' = true := List.elem_iff.mpr hm
  rw [h3] at h4
  exact Bool.noConfusion h4

/-- Unpacking a well-formed section continuation line. -/
theorem taskContentLine_facts (l : List Char) (h : taskContentLineB l = true) :
    (jsTrim l = l ∧ l ≠ [] ∧ '\n' ∉ l) ∧
    prefixB ['T', 'I', 'T', 'L', 'E', ':'] l = false ∧
    prefixB ['S', 'U', 'M', 'M', 'A', 'R', 'Y', ':'] l = false ∧
    prefixB ['T', 'E', 'C', 'H', 'N', 'I', 'C', 'A', 'L', ':'] l = false := by
  simp only [taskContentLineB, Bool.and_eq_true, Bool.not_eq_true'] at h
  exact ⟨taskFieldLine_facts l h.1.1.1, h.1.1.2, h.1.2, h.2⟩

/-- Inside an open section, a run of content lines is appended verbatim to
the accumulating body. -/
theorem taskFold_content (ls : List (List Char))
    (hls : ∀ l ∈ ls, taskContentLineB l = true) :
    ∀ (r : TaskResult) (cur : Cur) (acc : List (List Char)), cur ≠ Cur.blank →
      List.foldl taskStep ⟨r, cur, acc⟩ ls = ⟨r, cur, acc ++ ls⟩ := by
  induction ls with
  | nil => intro r cur acc _; simp
  | cons l ls' ih =>
    intro r cur acc hcur
    obtain ⟨⟨h1, h2, _⟩, hp1, hp2, hp3⟩ := taskContentLine_facts l (hls l (by simp))
    have hset : cur.isSet = true := by
      cases cur with
      | blank => exact absurd rfl hcur
      | summary => rfl
      | tech => rfl
    have h2' : l.isEmpty = false := by
      rw [← Bool.not_eq_true, List.isEmpty_iff]
      exact h2
    have hstep : taskStep ⟨r, cur, acc⟩ l = ⟨r, cur, acc ++ [l]⟩ := by
      simp [taskStep, h1, hp1, hp2, hp3, hset, h2']
    rw [List.foldl_cons, hstep,
      ih (fun q hq => hls q (by simp [hq])) r cur (acc ++ [l]) hcur]
    simp

/-! ## C7 — round-trip of well-formed TASK responses -/

/-- C7 (amended): a well-formed response whose section lines are
individually trimmed and non-empty parses to exactly the three contents —
the title from the `TITLE:` line, and the summary/technical bodies as their
lines joined by newlines (whitespace-trimmed as a whole), multi-line
`SUMMARY` bodies included. -/
theorem parseTask_labeled_roundtrip (t s0 t0 : List Char)
    (srest trest : List (List Char))
    (ht : taskFieldLineB t = true) (hs0 : taskFieldLineB s0 = true)
    (ht0 : taskFieldLineB t0 = true)
    (hsr : ∀ l ∈ srest, taskContentLineB l = true)
    (htr : ∀ l ∈ trest, taskContentLineB l = true) :
    parseTaskResponse (mkTaskResponse t s0 srest t0 trest) =
      ⟨t, jsTrim (intercalNl (s0 :: srest)), jsTrim (intercalNl (t0 :: trest))⟩ := by
  obtain ⟨ht1, ht2, ht3⟩ := taskFieldLine_facts t ht
  obtain ⟨hs1, hs2, hs3⟩ := taskFieldLine_facts s0 hs0
  obtain ⟨hz1, hz2, hz3⟩ := taskFieldLine_facts t0 ht0
  -- the three label lines, in explicit character form
  have hL1 : jsTrim ('T' :: 'I' :: 'T' :: 'L' :: 'E' :: ':' :: ' ' :: t)
      = 'T' :: 'I' :: 'T' :: 'L' :: 'E' :: ':' :: ' ' :: t :=
    jsTrim_label_append 'T' ['I', 'T', 'L', 'E', ':', ' '] t (by decide) ht1 ht2
  have hL2 : jsTrim ('S' :: 'U' :: 'M' :: 'M' :: 'A' :: 'R' :: 'Y' :: ':' :: ' ' :: s0)
      = 'S' :: 'U' :: 'M' :: 'M' :: 'A' :: 'R' :: 'Y' :: ':' :: ' ' :: s0 :=
    jsTrim_label_append 'S' ['U', 'M', 'M', 'A', 'R', 'Y', ':', ' '] s0 (by decide) hs1 hs2
  have hL3 : jsTrim ('T' :: 'E' :: 'C' :: 'H' :: 'N' :: 'I' :: 'C' :: 'A' :: 'L' :: ':' :: ' ' :: t0)
      = 'T' :: 'E' :: 'C' :: 'H' :: 'N' :: 'I' :: 'C' :: 'A' :: 'L' :: ':' :: ' ' :: t0 :=
    jsTrim_label_append 'T' ['E', 'C', 'H', 'N', 'I', 'C', 'A', 'L', ':', ' '] t0
      (by decide) hz1 hz2
  have hmk : mkTaskResponse t s0 srest t0 trest =
      intercalNl (('T' :: 'I' :: 'T' :: 'L' :: 'E' :: ':' :: ' ' :: t) ::
        ('S' :: 'U' :: 'M' :: 'M' :: 'A' :: 'R' :: 'Y' :: ':' :: ' ' :: s0) ::
        (srest ++ ('T' :: 'E' :: 'C' :: 'H' :: 'N' :: 'I' :: 'C' :: 'A' :: 'L' :: ':' :: ' ' :: t0) :: trest)) :=
    rfl
  have hall : ∀ l ∈ ('T' :: 'I' :: 'T' :: 'L' :: 'E' :: ':' :: ' ' :: t) ::
      ('S' :: 'U' :: 'M' :: 'M' :: 'A' :: 'R' :: 'Y' :: ':' :: ' ' :: s0) ::
      (srest ++ ('T' :: 'E' :: 'C' :: 'H' :: 'N' :: 'I' :: 'C' :: 'A' :: 'L' :: ':' :: ' ' :: t0) :: trest),
      jsTrim l = l ∧ l ≠ [] := by
    intro l hl
    rcases List.mem_cons.mp hl with rfl | hl
    · exact ⟨hL1, by simp⟩
    rcases List.mem_cons.mp hl with rfl | hl
    · exact ⟨hL2, by simp⟩
    rcases List.mem_append.mp hl with hl | hl
    · exact ⟨(taskContentLine_facts l (hsr l hl)).1.1, (taskContentLine_facts l (hsr l hl)).1.2.1⟩
    rcases List.mem_cons.mp hl with rfl | hl
    · exact ⟨hL3, by simp⟩
    · exact ⟨(taskContentLine_facts l (htr l hl)).1.1, (taskContentLine_facts l (htr l hl)).1.2.1⟩
  have hnl : ∀ l ∈ ('T' :: 'I' :: 'T' :: 'L' :: 'E' :: ':' :: ' ' :: t) ::
      ('S' :: 'U' :: 'M' :: 'M' :: 'A' :: 'R' :: 'Y' :: ':' :: ' ' :: s0) ::
      (srest ++ ('T' :: 'E' :: 'C' :: 'H' :: 'N' :: 'I' :: 'C' :: 'A' :: 'L' :: ':' :: ' ' :: t0) :: trest),
      '\n' ∉ l := by
    intro l hl
    rcases List.mem_cons.mp hl with rfl | hl
    · intro hm
      simp at hm
      exact ht3 hm
    rcases List.mem_cons.mp hl with rfl | hl
    · intro hm
      simp at hm
      exact hs3 hm
    rcases List.mem_append.mp hl with hl | hl
    · exact (taskContentLine_facts l (hsr l hl)).1.2.2
    rcases List.mem_cons.mp hl with rfl | hl
    · intro hm
      simp at hm
      exact hz3 hm
    · exact (taskContentLine_facts l (htr l hl)).1.2.2
  have htrim := intercal_trim_id _ (by simp) hall
  have hsplit := splitNl_intercal _ (by simp) hnl
  -- step through the scan
  have hs2' : s0.isEmpty = false := by
    rw [← Bool.not_eq_true, List.isEmpty_iff]; exact hs2
  have hz2' : t0.isEmpty = false := by
    rw [← Bool.not_eq_true, List.isEmpty_iff]; exact hz2
  have hsp1 : jsTrim (' ' :: t) = t := jsTrim_ws_cons ' ' t (by decide) ht1 ht2
  have hsp2 : jsTrim (' ' :: s0) = s0 := jsTrim_ws_cons ' ' s0 (by decide) hs1 hs2
  have hsp3 : jsTrim (' ' :: t0) = t0 := jsTrim_ws_cons ' ' t0 (by decide) hz1 hz2
  have hstep1 : taskStep ⟨⟨[], [], []⟩, .blank, []⟩ ('T' :: 'I' :: 'T' :: 'L' :: 'E' :: ':' :: ' ' :: t)
      = ⟨⟨t, [], []⟩, .blank, []⟩ := by
    have hpre : prefixB ['T', 'I', 'T', 'L', 'E', ':']
        ('T' :: 'I' :: 'T' :: 'L' :: 'E' :: ':' :: ' ' :: t) = true := by simp [prefixB]
    have hdrop : ('T' :: 'I' :: 'T' :: 'L' :: 'E' :: ':' :: ' ' :: t).drop 6 = ' ' :: t := rfl
    simp [taskStep, flushTask, hL1, hpre, hdrop, hsp1]
  have hstep2 : taskStep ⟨⟨t, [], []⟩, .blank, []⟩
      ('S' :: 'U' :: 'M' :: 'M' :: 'A' :: 'R' :: 'Y' :: ':' :: ' ' :: s0)
      = ⟨⟨t, [], []⟩, .summary, [s0]⟩ := by
    have hpre1 : prefixB ['T', 'I', 'T', 'L', 'E', ':']
        ('S' :: 'U' :: 'M' :: 'M' :: 'A' :: 'R' :: 'Y' :: ':' :: ' ' :: s0) = false := by simp [prefixB]
    have hpre2 : prefixB ['S', 'U', 'M', 'M', 'A', 'R', 'Y', ':']
        ('S' :: 'U' :: 'M' :: 'M' :: 'A' :: 'R' :: 'Y' :: ':' :: ' ' :: s0) = true := by simp [prefixB]
    have hdrop : ('S' :: 'U' :: 'M' :: 'M' :: 'A' :: 'R' :: 'Y' :: ':' :: ' ' :: s0).drop 8 = ' ' :: s0 := rfl
    simp [taskStep, flushTask, hL2, hpre1, hpre2, hdrop, hsp2, hs2']
  have hstep3 : taskStep ⟨⟨t, [], []⟩, .summary, s0 :: srest⟩
      ('T' :: 'E' :: 'C' :: 'H' :: 'N' :: 'I' :: 'C' :: 'A' :: 'L' :: ':' :: ' ' :: t0)
      = ⟨⟨t, jsTrim (intercalNl (s0 :: srest)), []⟩, .tech, [t0]⟩ := by
    have hpre1 : prefixB ['T', 'I', 'T', 'L', 'E', ':']
        ('T' :: 'E' :: 'C' :: 'H' :: 'N' :: 'I' :: 'C' :: 'A' :: 'L' :: ':' :: ' ' :: t0) = false := by
      simp [prefixB]
    have hpre2 : prefixB ['S', 'U', 'M', 'M', 'A', 'R', 'Y', ':']
        ('T' :: 'E' :: 'C' :: 'H' :: 'N' :: 'I' :: 'C' :: 'A' :: 'L' :: ':' :: ' ' :: t0) = false := by
      simp [prefixB]
    have hpre3 : prefixB ['T', 'E', 'C', 'H', 'N', 'I', 'C', 'A', 'L', ':']
        ('T' :: 'E' :: 'C' :: 'H' :: 'N' :: 'I' :: 'C' :: 'A' :: 'L' :: ':' :: ' ' :: t0) = true := by
      simp [prefixB]
    have hdrop : ('T' :: 'E' :: 'C' :: 'H' :: 'N' :: 'I' :: 'C' :: 'A' :: 'L' :: ':' :: ' ' :: t0).drop 10
        = ' ' :: t0 := rfl
    simp [taskStep, flushTask, hL3, hpre1, hpre2, hpre3, hdrop, hsp3, hz2']
  have hfold1 := taskFold_content srest hsr ⟨t, [], []⟩ .summary [s0] (by simp)
  have hfold2 := taskFold_content trest htr
    ⟨t, jsTrim (intercalNl (s0 :: srest)), []⟩ .tech [t0] (by simp)
  have hscan : scanTask (('T' :: 'I' :: 'T' :: 'L' :: 'E' :: ':' :: ' ' :: t) ::
      ('S' :: 'U' :: 'M' :: 'M' :: 'A' :: 'R' :: 'Y' :: ':' :: ' ' :: s0) ::
      (srest ++ ('T' :: 'E' :: 'C' :: 'H' :: 'N' :: 'I' :: 'C' :: 'A' :: 'L' :: ':' :: ' ' :: t0) :: trest))
      = ⟨t, jsTrim (intercalNl (s0 :: srest)), jsTrim (intercalNl (t0 :: trest))⟩ := by
    unfold scanTask
    rw [List.foldl_cons, hstep1, List.foldl_cons, hstep2, List.foldl_append, hfold1]
    simp only [List.singleton_append]
    rw [List.foldl_cons, hstep3, hfold2]
    simp only [List.singleton_append]
    simp [flushTask]
  -- the summary is non-empty, so the fallback pass is not taken
  have hSne : jsTrim (intercalNl (s0 :: srest)) ≠ [] := by
    obtain ⟨c, tl0, hs0c⟩ : ∃ c tl0, s0 = c :: tl0 := by
      cases s0 with
      | nil => exact absurd rfl hs2
      | cons c tl0 => exact ⟨c, tl0, rfl⟩
    have hcws := trimmed_head s0 c tl0 hs1 hs0c
    refine jsTrim_ne_nil_of_mem _ c ?_ hcws
    cases srest with
    | nil => simp [intercalNl, hs0c]
    | cons q qr => simp [intercalNl, hs0c]
  have hSne' : (jsTrim (intercalNl (s0 :: srest))).isEmpty = false := by
    rw [← Bool.not_eq_true, List.isEmpty_iff]; exact hSne
  rw [hmk]
  simp only [parseTaskResponse, htrim, hsplit, hscan, hSne', Bool.false_and,
    Bool.false_eq_true, if_false]

/-- Counterexample to C7 as stated: a well-formed response with a
multi-line SUMMARY body containing a blank line and an indented line; the
parser drops the blank line and the indentation, so the body is *not*
recovered intact (whitespace-trimmed as a whole). -/
theorem parseTask_not_exact_roundtrip :
    parseTaskResponse
      "TITLE: t1\nSUMMARY: first line\n\n   - second item\nTECHNICAL: tech notes".toList
      = ⟨"t1".toList, "first line\n- second item".toList, "tech notes".toList⟩ ∧
    jsTrim "first line\n\n   - second item".toList = "first line\n\n   - second item".toList ∧
    "first line\n- second item".toList ≠ "first line\n\n   - second item".toList := by
  refine ⟨by decide, by decide, by decide⟩

/-- Witness for C7's amended statement at a concrete two-line SUMMARY. -/
theorem parseTask_labeled_roundtrip_witness :
    parseTaskResponse (mkTaskResponse "t1".toList "first".toList ["- a".toList]
      "tech".toList []) =
      ⟨"t1".toList, jsTrim (intercalNl ["first".toList, "- a".toList]),
        jsTrim (intercalNl ["tech".toList])⟩ ∧
    jsTrim (intercalNl ["first".toList, "- a".toList]) = "first\n- a".toList := by
  refine ⟨parseTask_labeled_roundtrip "t1".toList "first".toList "tech".toList
    ["- a".toList] [] (by decide) (by decide) (by decide) (by decide) (by decide), by decide⟩

/-! ## C8 — TASK parsing is total; malformed input degrades to defaults -/

/-- C8: TASK-mode parsing is a total function (the parsing region of
`callGroq` contains no throw); on input lacking all three expected labels
every field is the empty string, and whenever the scan yields neither
summary nor technical content the parser degrades to the second-chance
regex pass instead of failing. -/
theorem parseTask_never_throws (raw : List Char) :
    (containsSub "TITLE:".toList raw = false →
      containsSub "SUMMARY:".toList raw = false →
      containsSub "TECHNICAL:".toList raw = false →
      parseTaskResponse raw = ⟨[], [], []⟩) ∧
    ((scanTask (splitNl (jsTrim raw))).summary = [] →
      (scanTask (splitNl (jsTrim raw))).tech = [] →
      parseTaskResponse raw = applyFallback (jsTrim raw) (scanTask (splitNl (jsTrim raw)))) := by
  constructor
  · intro hT hS hTe
    have hlines : ∀ l ∈ splitNl (jsTrim raw),
        prefixB "TITLE:".toList (jsTrim l) = false ∧
        prefixB "SUMMARY:".toList (jsTrim l) = false ∧
        prefixB "TECHNICAL:".toList (jsTrim l) = false := by
      intro l hl
      refine ⟨?_, ?_, ?_⟩
      · cases hp : prefixB "TITLE:".toList (jsTrim l) with
        | false => rfl
        | true =>
          rw [containsSub_of_line_label _ raw l hl hp] at hT
          exact Bool.noConfusion hT
      · cases hp : prefixB "SUMMARY:".toList (jsTrim l) with
        | false => rfl
        | true =>
          rw [containsSub_of_line_label _ raw l hl hp] at hS
          exact Bool.noConfusion hS
      · cases hp : prefixB "TECHNICAL:".toList (jsTrim l) with
        | false => rfl
        | true =>
          rw [containsSub_of_line_label _ raw l hl hp] at hTe
          exact Bool.noConfusion hTe
    have hscan := scanTask_no_labels _ hlines
    have hT' : containsSub "TITLE:".toList (jsTrim raw) = false := by
      cases hq : containsSub "TITLE:".toList (jsTrim raw) with
      | false => rfl
      | true =>
        obtain ⟨s, t, hst⟩ := jsTrim_decomp raw
        rw [containsSub_of_sub _ _ raw s t hq hst] at hT
        exact Bool.noConfusion hT
    have hS' : containsSub "SUMMARY:".toList (jsTrim raw) = false := by
      cases hq : containsSub "SUMMARY:".toList (jsTrim raw) with
      | false => rfl
      | true =>
        obtain ⟨s, t, hst⟩ := jsTrim_decomp raw
        rw [containsSub_of_sub _ _ raw s t hq hst] at hS
        exact Bool.noConfusion hS
    have hTe' : containsSub "TECHNICAL:".toList (jsTrim raw) = false := by
      cases hq : containsSub "TECHNICAL:".toList (jsTrim raw) with
      | false => rfl
      | true =>
        obtain ⟨s, t, hst⟩ := jsTrim_decomp raw
        rw [containsSub_of_sub _ _ raw s t hq hst] at hTe
        exact Bool.noConfusion hTe
    have hfb1 : jsTitleCapture (jsTrim raw) = none := jsTitleCapture_none _ hT'
    have hfb2 : dropAfterPat ['S', 'U', 'M', 'M', 'A', 'R', 'Y', ':'] (jsTrim raw) = none :=
      dropAfterPat_none _ _ (by decide) hS'
    have hfb3 : dropAfterPat ['T', 'E', 'C', 'H', 'N', 'I', 'C', 'A', 'L', ':'] (jsTrim raw)
        = none := dropAfterPat_none _ _ (by decide) hTe'
    simp only [parseTaskResponse]
    rw [hscan]
    simp [applyFallback, jsSummaryCapture, jsTechCapture, hfb1, hfb2, hfb3]
  · intro hsum htech
    simp only [parseTaskResponse]
    simp [hsum, htech]

/-- Witness for C8 at a concrete label-free input. -/
theorem parseTask_never_throws_witness :
    parseTaskResponse "just some prose\nwith two lines".toList = ⟨[], [], []⟩ ∧
    parseTaskResponse "just some prose\nwith two lines".toList =
      applyFallback (jsTrim "just some prose\nwith two lines".toList)
        (scanTask (splitNl (jsTrim "just some prose\nwith two lines".toList))) := by
  have h := parseTask_never_throws "just some prose\nwith two lines".toList
  exact ⟨h.1 (by decide) (by decide) (by decide), h.2 (by decide) (by decide)⟩

/-! ## C5 — day rollover of `getUsage` -/

/-- C5: for every persisted usage state whose stored day label differs from
the current day label, `getUsage` returns `today = 0`; and when the stored
month label matches the current month label the month counter is returned
unchanged. -/
theorem getUsage_day_rollover (u : UsageRec) (curDay curMonth : String)
    (h : u.lastUsed ≠ curDay) :
    (getUsage (some (some u)) curDay curMonth).today = 0 ∧
    (u.currentMonth = curMonth →
      (getUsage (some (some u)) curDay curMonth).month = u.month) := by
  unfold getUsage
  simp only [if_pos h]
  constructor
  · split <;> rfl
  · intro hm
    rw [if_neg (by simp [hm])]

/-- Witness for C5 at a concrete rolled-over state. -/
theorem getUsage_day_rollover_witness :
    (getUsage (some (some ⟨5, 7, "Mon Feb 03 2025", "2025-02"⟩)) "Tue Feb 04 2025"
      "2025-02").today = 0 ∧
    (getUsage (some (some ⟨5, 7, "Mon Feb 03 2025", "2025-02"⟩)) "Tue Feb 04 2025"
      "2025-02").month = 7 := by
  have h := getUsage_day_rollover ⟨5, 7, "Mon Feb 03 2025", "2025-02"⟩
    "Tue Feb 04 2025" "2025-02" (by decide)
  exact ⟨h.1, h.2 rfl⟩

/-! ## C10 — `getUsage` never writes; the reset is persisted by
`updateUsage` -/

/-- C10: a `getUsage` run performs no write on the usage file and leaves
its contents unchanged; an `updateUsage` run performs exactly one write,
whose content is the rolled-over record (day/month labels brought current)
with both counters incremented. -/
theorem getUsage_frame (file : UsageFile) (curDay curMonth : String) :
    ((getUsageRun file curDay curMonth).2.1.filter FsOp.isWrite = [] ∧
      (getUsageRun file curDay curMonth).2.2 = file) ∧
    (updateUsageRun file curDay curMonth).2.filter FsOp.isWrite
      = [.writeUsage (updateUsageRecord file curDay curMonth)] ∧
    (getUsage file curDay curMonth).lastUsed = curDay ∧
    (getUsage file curDay curMonth).currentMonth = curMonth := by
  refine ⟨⟨?_, rfl⟩, ?_, ?_, ?_⟩
  · cases file <;> simp [getUsageRun, getUsageOps, FsOp.isWrite]
  · cases file <;> simp [updateUsageRun, getUsageOps, FsOp.isWrite]
  · rcases file with _ | _ | u
    · rfl
    · rfl
    · unfold getUsage
      by_cases hd : u.lastUsed = curDay <;>
        by_cases hm : u.currentMonth = curMonth <;>
          simp [hd, hm]
  · rcases file with _ | _ | u
    · rfl
    · rfl
    · unfold getUsage
      by_cases hd : u.lastUsed = curDay <;>
        by_cases hm : u.currentMonth = curMonth <;>
          simp [hd, hm]

/-! ## C4 — quota gate of the free-tier adapter -/

/-- C4: when the counters read at call time have reached the daily or the
monthly limit, `callFreeTier` throws, issues no network request, and does
not increment the usage counters. -/
theorem callFreeTier_quota_blocked {α : Type} (file : UsageFile)
    (curDay curMonth : String) (hasKey : Bool) (answer : String)
    (commitMode : Bool) (netResp : Except String α)
    (h : freeTierDailyLimit ≤ (getUsage file curDay curMonth).today ∨
      freeTierMonthlyLimit ≤ (getUsage file curDay curMonth).month) :
    isErrB (callFreeTier file curDay curMonth hasKey answer commitMode netResp).1 = true ∧
    (callFreeTier file curDay curMonth hasKey answer commitMode netResp).2.network = [] ∧
    (callFreeTier file curDay curMonth hasKey answer commitMode netResp).2.usageWrites = [] := by
  have hc : canUseFreeTier (getUsage file curDay curMonth) = false := by
    unfold canUseFreeTier
    rcases h with h | h <;> simp [Nat.not_lt.mpr h]
  by_cases hk : hasKey = true
  · simp [callFreeTier, hc, hk, isErrB]
  · simp only [Bool.not_eq_true] at hk
    by_cases ha : answerIsNo answer = true <;>
      simp [callFreeTier, hc, hk, ha, isErrB]

/-- Witness for C4: call number 11 against the 10/day limit. -/
theorem callFreeTier_quota_blocked_witness :
    freeTierDailyLimit ≤
      (getUsage (some (some ⟨10, 10, "Mon Feb 03 2025", "2025-02"⟩))
        "Mon Feb 03 2025" "2025-02").today ∧
    isErrB (callFreeTier (some (some ⟨10, 10, "Mon Feb 03 2025", "2025-02"⟩))
      "Mon Feb 03 2025" "2025-02" true "y" false
      (Except.error "unused" : Except String Unit)).1 = true ∧
    (callFreeTier (some (some ⟨10, 10, "Mon Feb 03 2025", "2025-02"⟩))
      "Mon Feb 03 2025" "2025-02" true "y" false
      (Except.error "unused" : Except String Unit)).2.network = [] ∧
    (callFreeTier (some (some ⟨10, 10, "Mon Feb 03 2025", "2025-02"⟩))
      "Mon Feb 03 2025" "2025-02" true "y" false
      (Except.error "unused" : Except String Unit)).2.usageWrites = [] := by
  have h := callFreeTier_quota_blocked
    (some (some ⟨10, 10, "Mon Feb 03 2025", "2025-02"⟩)) "Mon Feb 03 2025" "2025-02"
    true "y" false (Except.error "unused" : Except String Unit)
    (Or.inl (by decide))
  exact ⟨by decide, h.1, h.2.1, h.2.2⟩

/-! ## C9 — model resolution -/

/-- C9 (amended): no requested model ⇒ the target's default; a mapped pair
⇒ the provider-specific equivalent; a mapping miss ⇒ the target's default,
with the informational notice emitted iff the requested model differs from
that default (in particular, requesting a provider's own default model that
is absent from the table falls through silently). -/
theorem mapModelToEngine_spec (model? : Option String) (e : Engine) :
    (model?.getD "" = "" → mapModelToEngine model? e = (defaultModels e, false)) ∧
    (∀ m mapped, model? = some m → modelMappingLookup m e = some mapped →
      mapModelToEngine model? e = (mapped, false)) ∧
    (∀ m, model? = some m → m ≠ "" → modelMappingLookup m e = none →
      mapModelToEngine model? e = (engineDefaults e, engineDefaults e != m)) := by
  refine ⟨fun h => ?_, fun m mapped hm hl => ?_, fun m hm hne hl => ?_⟩
  · unfold mapModelToEngine
    rw [h]
    rfl
  · have hne : m ≠ "" := by
      rintro rfl
      rw [show modelMappingLookup "" e = none by cases e <;> decide] at hl
      exact Option.noConfusion hl
    unfold mapModelToEngine
    rw [hm]
    simp only [Option.getD_some, if_neg hne, hl]
  · unfold mapModelToEngine
    rw [hm]
    simp only [Option.getD_some, if_neg hne, hl]

/-- Witness for C9's amended statement: a defaulted request, a mapped
request, and a fallthrough with notice. -/
theorem mapModelToEngine_spec_witness :
    mapModelToEngine none Engine.openai = ("gpt-4o-mini", false) ∧
    mapModelToEngine (some "gpt-4o") Engine.groq = ("llama-3.3-70b-versatile", false) ∧
    mapModelToEngine (some "claude-3") Engine.groq = ("llama-3.3-70b-versatile", true) := by
  refine ⟨(mapModelToEngine_spec none Engine.openai).1 rfl, ?_, ?_⟩
  · exact (mapModelToEngine_spec (some "gpt-4o") Engine.groq).2.1 "gpt-4o"
      "llama-3.3-70b-versatile" rfl (by decide)
  · exact ((mapModelToEngine_spec (some "claude-3") Engine.groq).2.2 "claude-3" rfl
      (by decide) (by decide)).trans (by decide)

/-- Counterexample to C9 as stated: requesting `huggingface`'s own default
model, which is not a key of the mapping table, is a mapping miss that
returns the default **without** emitting the fallthrough notice. -/
theorem mapModelToEngine_silent_fallthrough :
    modelMappingLookup "meta-llama/Llama-3.1-70B-Instruct" Engine.huggingface = none ∧
    engineDefaults Engine.huggingface = "meta-llama/Llama-3.1-70B-Instruct" ∧
    mapModelToEngine (some "meta-llama/Llama-3.1-70B-Instruct") Engine.huggingface
      = ("meta-llama/Llama-3.1-70B-Instruct", false) := by
  refine ⟨by decide, by decide, by decide⟩

/-! ## C2 — the COMMIT parser raises exactly on a missing/empty
DESCRIPTION -/

/-- C2: COMMIT-mode parsing raises iff the description produced by the
label scan — the content of the last `DESCRIPTION:` line, if any — is
empty; whenever that value is non-empty, parsing returns the structured
record and never raises, whatever the other fields are. -/
theorem parseCommit_raises_iff_no_description (hType hScope : List Char)
    (hBreaking : Bool) (raw : List Char) :
    isErrB (parseCommitResponse hType hScope hBreaking raw) = true ↔
      lastDescSpec (splitNl (jsTrim raw)) [] = [] := by
  simp only [parseCommitResponse, scanCommit]
  rw [scanCommit_fields (splitNl (jsTrim raw)) (initCommit hType hScope hBreaking)]
  have hinit : (initCommit hType hScope hBreaking).description = [] := rfl
  simp only [hinit]
  by_cases h : (lastDescSpec (splitNl (jsTrim raw)) []).isEmpty = true
  · simp [h, isErrB, List.isEmpty_iff.mp h]
  · simp only [Bool.not_eq_true] at h
    simp only [h]
    simp [isErrB]
    intro hc
    rw [hc] at h
    exact Bool.noConfusion h

/-! ## C6 — commit-field normalization -/

/-- Counterexample to C6 as stated: a response whose `TYPE:` value is not
in the enum parses to that (lower-cased) value, not to `chore` — the
parser applies no enum validation. -/
theorem parseCommit_type_not_validated :
    parseCommitResponse [] [] false "TYPE: WIP\nDESCRIPTION: fix parser".toList
      = Except.ok ⟨"wip".toList, [], "fix parser".toList, [], false, []⟩ ∧
    validTypes.contains "wip".toList = false ∧
    "wip".toList ≠ "chore".toList := by
  refine ⟨by decide, by decide, by decide⟩

/-- C6 (amended): the parser lower-cases the TYPE value and keeps the last
non-empty one, defaulting to the caller's hint or `"feat"` — with **no**
enum validation; SCOPE/BODY/BREAKING values equal to the literal strings
`"empty"`/`"none"` are normalized to true-empty; the enum validation with
the `chore` default is applied downstream by `formatCommitMessage`. -/
theorem parseCommit_field_normalization :
    (∀ (hType hScope : List Char) (hBreaking : Bool) (raw : List Char),
      (scanCommit hType hScope hBreaking (splitNl (jsTrim raw))).type
          = lastTypeSpec (splitNl (jsTrim raw))
              (if hType.isEmpty then "feat".toList else hType) ∧
      (scanCommit hType hScope hBreaking (splitNl (jsTrim raw))).scope
          = lastScopeSpec (splitNl (jsTrim raw)) hScope ∧
      (scanCommit hType hScope hBreaking (splitNl (jsTrim raw))).body
          = lastBodySpec (splitNl (jsTrim raw)) [] ∧
      (scanCommit hType hScope hBreaking (splitNl (jsTrim raw))).breaking
          = (lastBreakingSpec (splitNl (jsTrim raw)) (hBreaking, [])).1 ∧
      (scanCommit hType hScope hBreaking (splitNl (jsTrim raw))).breakingDescription
          = (lastBreakingSpec (splitNl (jsTrim raw)) (hBreaking, [])).2) ∧
    (∀ r : CommitResult, validTypes.contains r.type = false →
      r.type.isEmpty = false → r.description.isEmpty = false →
      prefixB "chore".toList (formatCommitMessage r) = true) := by
  constructor
  · intro hType hScope hBreaking raw
    unfold scanCommit
    rw [scanCommit_fields (splitNl (jsTrim raw)) (initCommit hType hScope hBreaking)]
    exact ⟨rfl, rfl, rfl, rfl, rfl⟩
  · intro r hvalid htype hdesc
    have hct : commitTypeOf r.type = "chore".toList := by
      unfold commitTypeOf
      rw [hvalid]
      simp
    simp only [formatCommitMessage, htype, hdesc, hct, Bool.not_false, Bool.and_false,
      Bool.false_and, Bool.and_true, Bool.true_and, if_false, Bool.false_eq_true,
      if_neg (Bool.false_ne_true)]
    simp only [List.append_assoc]
    exact prefixB_self_append _ _

/-! ## C3 — short-circuit dispatch -/

/-- Running the candidate loop over a failing prefix followed by a
succeeding candidate returns that candidate's result, having invoked
exactly the non-skipped prefix and the succeeding candidate (later
candidates are untouched). -/
theorem runEngines_prefix_fail_then_ok {α : Type} (call : Engine → String → Except String α)
    (model? : Option String) (v : α) :
    ∀ (pre : List Engine) (e : Engine) (rest : List Engine)
      (errs : List String) (inv : List Engine) (con : List String),
      (∀ p ∈ pre, p ≠ Engine.huggingface →
        isErrB (call p (mapModelToEngine model? p).1) = true) →
      e ≠ Engine.huggingface →
      call e (mapModelToEngine model? e).1 = .ok v →
      ∃ errs' con',
        runEngines call model? (pre ++ e :: rest) errs inv con =
          (some v, errs',
           inv ++ pre.filter (fun p => p != Engine.huggingface) ++ [e], con') := by
  intro pre
  induction pre with
  | nil =>
    intro e rest errs inv con _ he hok
    refine ⟨errs, con ++ [tryLineStr e], ?_⟩
    cases e with
    | huggingface => exact absurd rfl he
    | groq => simp [runEngines, hok]
    | openai => simp [runEngines, hok]
    | freetier => simp [runEngines, hok]
  | cons p ps ih =>
    intro e rest errs inv con hfail he hok
    have hfailp := hfail p (by simp)
    have hfailps : ∀ q ∈ ps, q ≠ Engine.huggingface →
        isErrB (call q (mapModelToEngine model? q).1) = true :=
      fun q hq => hfail q (by simp [hq])
    cases p with
    | huggingface =>
      obtain ⟨errs', con', hrun⟩ := ih e rest errs inv con hfailps he hok
      exact ⟨errs', con', by simpa [runEngines] using hrun⟩
    | groq =>
      cases hcall : call Engine.groq (mapModelToEngine model? Engine.groq).1 with
      | ok w => rw [hcall] at hfailp; simp [isErrB] at hfailp
      | error msg =>
        obtain ⟨errs', con', hrun⟩ := ih e rest
          (errs ++ [engineName Engine.groq ++ ": " ++ msg])
          (inv ++ [Engine.groq])
          (con ++ [tryLineStr Engine.groq] ++ [failLine Engine.groq msg]) hfailps he hok
        refine ⟨errs', con', ?_⟩
        simp only [runEngines, hcall, List.cons_append, List.append_eq]
        rw [if_neg (by simp)]
        rw [hrun]
        simp [List.filter_cons, List.append_assoc]
    | openai =>
      cases hcall : call Engine.openai (mapModelToEngine model? Engine.openai).1 with
      | ok w => rw [hcall] at hfailp; simp [isErrB] at hfailp
      | error msg =>
        obtain ⟨errs', con', hrun⟩ := ih e rest
          (errs ++ [engineName Engine.openai ++ ": " ++ msg])
          (inv ++ [Engine.openai])
          (con ++ [tryLineStr Engine.openai] ++ [failLine Engine.openai msg]) hfailps he hok
        refine ⟨errs', con', ?_⟩
        simp only [runEngines, hcall, List.cons_append, List.append_eq]
        rw [if_neg (by simp)]
        rw [hrun]
        simp [List.filter_cons, List.append_assoc]
    | freetier =>
      cases hcall : call Engine.freetier (mapModelToEngine model? Engine.freetier).1 with
      | ok w => rw [hcall] at hfailp; simp [isErrB] at hfailp
      | error msg =>
        obtain ⟨errs', con', hrun⟩ := ih e rest
          (errs ++ [engineName Engine.freetier ++ ": " ++ msg])
          (inv ++ [Engine.freetier])
          (con ++ [tryLineStr Engine.freetier] ++ [failLine Engine.freetier msg]) hfailps he hok
        refine ⟨errs', con', ?_⟩
        simp only [runEngines, hcall, List.cons_append, List.append_eq]
        rw [if_neg (by simp)]
        rw [hrun]
        simp [List.filter_cons, List.append_assoc]

/-- C3: when every candidate before `e` fails (retryably or not) and `e`'s
adapter succeeds, `callAuto` returns `e`'s result and the invoked adapters
are exactly the failing prefix (minus the switch-skipped `huggingface`
entry) followed by `e` — no later candidate is ever invoked. -/
theorem callAuto_short_circuit {α : Type} (kG kO kH hasAny : Bool)
    (model? : Option String) (call : Engine → String → Except String α) (v : α)
    (pre : List Engine) (e : Engine) (rest : List Engine)
    (hsplit : buildEngines kG kO kH = pre ++ e :: rest)
    (hfail : ∀ p ∈ pre, p ≠ Engine.huggingface →
      isErrB (call p (mapModelToEngine model? p).1) = true)
    (he : e ≠ Engine.huggingface)
    (hok : call e (mapModelToEngine model? e).1 = .ok v) :
    (callAuto kG kO kH hasAny model? call).1 = .ok v ∧
    (callAuto kG kO kH hasAny model? call).2.invoked =
      pre.filter (fun p => p != Engine.huggingface) ++ [e] := by
  simp only [callAuto]
  rw [hsplit]
  obtain ⟨errs', con', hrun⟩ := runEngines_prefix_fail_then_ok call model? v pre e rest [] []
    (if pre ++ e :: rest = [Engine.freetier]
      then ["🆓 No API keys configured, using free tier..."] else [])
    hfail he hok
  rw [hrun]
  exact ⟨rfl, by simp⟩

/-- Witness for C3: groq fails with a 503, openai succeeds, the free tier
is never invoked. -/
theorem callAuto_short_circuit_witness :
    (callAuto true true false true none
      (fun e _ => if e = Engine.openai then (.ok "r" : Except String String)
                  else .error "503")).1 = .ok "r" ∧
    (callAuto true true false true none
      (fun e _ => if e = Engine.openai then (.ok "r" : Except String String)
                  else .error "503")).2.invoked = [Engine.groq, Engine.openai] := by
  have h := callAuto_short_circuit true true false true none
    (fun e _ => if e = Engine.openai then (.ok "r" : Except String String)
                else .error "503") "r"
    [Engine.groq] Engine.openai [Engine.freetier]
    (by decide) (by decide) (by decide) (by decide)
  exact ⟨h.1, h.2.trans (by decide)⟩

/-! ## C1 — shape of the exhausted-fallback error -/

/-- Running the candidate loop when every (non-skipped) candidate fails:
no result, the error list extended with one `engine: message` entry per
failing candidate, every failing candidate invoked. -/
theorem runEngines_all_fail {α : Type} (call : Engine → String → Except String α)
    (model? : Option String) (msgOf : Engine → String) :
    ∀ (es : List Engine) (errs : List String) (inv : List Engine) (con : List String),
      (∀ p ∈ es, p ≠ Engine.huggingface →
        call p (mapModelToEngine model? p).1 = .error (msgOf p)) →
      ∃ con',
        runEngines call model? es errs inv con =
          (none,
           errs ++ (es.filter (fun p => p != Engine.huggingface)).map
             (fun p => engineName p ++ ": " ++ msgOf p),
           inv ++ es.filter (fun p => p != Engine.huggingface), con') := by
  intro es
  induction es with
  | nil => intro errs inv con _; exact ⟨con, by simp [runEngines]⟩
  | cons p ps ih =>
    intro errs inv con hfail
    have hfailp := hfail p (by simp)
    have hfailps : ∀ q ∈ ps, q ≠ Engine.huggingface →
        call q (mapModelToEngine model? q).1 = .error (msgOf q) :=
      fun q hq => hfail q (by simp [hq])
    cases p with
    | huggingface =>
      obtain ⟨con', hrun⟩ := ih errs inv con hfailps
      exact ⟨con', by simpa [runEngines] using hrun⟩
    | groq =>
      have hfp := hfailp (by decide)
      obtain ⟨con', hrun⟩ := ih (errs ++ [engineName Engine.groq ++ ": " ++ msgOf Engine.groq])
        (inv ++ [Engine.groq])
        (con ++ [tryLineStr Engine.groq] ++ [failLine Engine.groq (msgOf Engine.groq)])
        hfailps
      refine ⟨con', ?_⟩
      simp only [runEngines, hfp, List.cons_append, List.append_eq]
      rw [if_neg (by simp)]
      rw [hrun]
      simp [List.filter_cons, List.append_assoc]
    | openai =>
      have hfp := hfailp (by decide)
      obtain ⟨con', hrun⟩ := ih (errs ++ [engineName Engine.openai ++ ": " ++ msgOf Engine.openai])
        (inv ++ [Engine.openai])
        (con ++ [tryLineStr Engine.openai] ++ [failLine Engine.openai (msgOf Engine.openai)])
        hfailps
      refine ⟨con', ?_⟩
      simp only [runEngines, hfp, List.cons_append, List.append_eq]
      rw [if_neg (by simp)]
      rw [hrun]
      simp [List.filter_cons, List.append_assoc]
    | freetier =>
      have hfp := hfailp (by decide)
      cases hempty : ps.isEmpty with
      | true =>
        have hnil : ps = [] := List.isEmpty_iff.mp hempty
        subst hnil
        refine ⟨con ++ [tryLineStr Engine.freetier]
          ++ [failLine Engine.freetier (msgOf Engine.freetier)], ?_⟩
        simp [runEngines, hfp, List.filter_cons]
      | false =>
        obtain ⟨con', hrun⟩ := ih
          (errs ++ [engineName Engine.freetier ++ ": " ++ msgOf Engine.freetier])
          (inv ++ [Engine.freetier])
          (con ++ [tryLineStr Engine.freetier]
            ++ [failLine Engine.freetier (msgOf Engine.freetier)])
          hfailps
        refine ⟨con', ?_⟩
        simp only [runEngines, hfp, List.cons_append, List.append_eq]
        rw [if_neg (by simp [hempty])]
        rw [hrun]
        simp [List.filter_cons, List.append_assoc]

/-- C1 (amended): when every candidate fails, `callAuto` throws an error
whose message is one of the two fixed remediation texts — selected by
`hasAnyApiKey()` — while each per-provider failure (`engine: reason`) is
emitted to the console as a bullet line, not embedded in the thrown
message. -/
theorem callAuto_exhausted {α : Type} (kG kO kH hasAny : Bool)
    (model? : Option String) (call : Engine → String → Except String α)
    (msgOf : Engine → String)
    (hfail : ∀ p ∈ buildEngines kG kO kH, p ≠ Engine.huggingface →
      call p (mapModelToEngine model? p).1 = .error (msgOf p)) :
    (callAuto kG kO kH hasAny model? call).1 =
      .error (if hasAny then allConfiguredFailedMsg else noKeysFailedMsg) ∧
    ∀ p ∈ buildEngines kG kO kH, p ≠ Engine.huggingface →
      ("   • " ++ (engineName p ++ ": " ++ msgOf p))
        ∈ (callAuto kG kO kH hasAny model? call).2.console := by
  obtain ⟨con', hrun⟩ := runEngines_all_fail call model? msgOf (buildEngines kG kO kH) [] []
    (if buildEngines kG kO kH = [Engine.freetier]
      then ["🆓 No API keys configured, using free tier..."] else [])
    hfail
  simp only [callAuto]
  rw [hrun]
  constructor
  · cases hasAny <;> simp
  · intro p hp hne
    have hmem : (engineName p ++ ": " ++ msgOf p) ∈
        ((buildEngines kG kO kH).filter (fun q => q != Engine.huggingface)).map
          (fun q => engineName q ++ ": " ++ msgOf q) :=
      List.mem_map.mpr ⟨p, List.mem_filter.mpr ⟨hp, by simp [hne]⟩, rfl⟩
    cases hasAny <;>
      simp only [AutoTrace.console] <;>
      refine List.mem_append.mpr (Or.inr ?_) <;>
      exact List.mem_map.mpr ⟨engineName p ++ ": " ++ msgOf p, by simpa using hmem, rfl⟩

/-- Witness for C1's amended statement: two hosted providers and the free
tier all fail with a 503; the hosted-keys remediation message is thrown and
each failure appears as a console bullet. -/
theorem callAuto_exhausted_witness :
    (callAuto true true false true none
      (fun _ _ => (.error "503" : Except String Unit))).1
      = .error allConfiguredFailedMsg ∧
    ("   • " ++ ("groq" ++ ": " ++ "503"))
      ∈ (callAuto true true false true none
          (fun _ _ => (.error "503" : Except String Unit))).2.console := by
  have h := callAuto_exhausted true true false true none
    (fun _ _ => (.error "503" : Except String Unit)) (fun _ => "503")
    (by intro p hp hne; rfl)
  exact ⟨h.1, h.2 Engine.groq (by decide) (by decide)⟩

set_option maxRecDepth 8000 in
/-- Counterexample to C1 as stated: with all three candidates failing on
HTTP 503, the thrown aggregate error's message contains neither the
per-provider failure entry `groq: 503` nor even the reason string `503`. -/
theorem callAuto_error_lacks_reasons :
    (callAuto true true false true none
      (fun _ _ => (.error "503" : Except String Unit))).1
      = .error allConfiguredFailedMsg ∧
    (callAuto true true false true none
      (fun _ _ => (.error "503" : Except String Unit))).2.invoked
      = [Engine.groq, Engine.openai, Engine.freetier] ∧
    containsSub "groq: 503".toList allConfiguredFailedMsg.toList = false ∧
    containsSub "503".toList allConfiguredFailedMsg.toList = false := by
  refine ⟨by decide, by decide, by decide, by decide⟩

/-- Witness for C6's amended statement: every normalization branch
exercised at a concrete response, and the downstream `chore` coercion of
an invalid parsed type. -/
theorem parseCommit_field_normalization_witness :
    (scanCommit [] [] false (splitNl (jsTrim
      "TYPE: Feat\nSCOPE: none\nDESCRIPTION: add x\nBODY: empty\nBREAKING: drops api".toList))).type
        = "feat".toList ∧
    (scanCommit [] [] false (splitNl (jsTrim
      "TYPE: Feat\nSCOPE: none\nDESCRIPTION: add x\nBODY: empty\nBREAKING: drops api".toList))).scope
        = [] ∧
    (scanCommit [] [] false (splitNl (jsTrim
      "TYPE: Feat\nSCOPE: none\nDESCRIPTION: add x\nBODY: empty\nBREAKING: drops api".toList))).body
        = [] ∧
    (scanCommit [] [] false (splitNl (jsTrim
      "TYPE: Feat\nSCOPE: none\nDESCRIPTION: add x\nBODY: empty\nBREAKING: drops api".toList))).breaking
        = true ∧
    prefixB "chore".toList
      (formatCommitMessage ⟨"wip".toList, [], "fix".toList, [], false, []⟩) = true := by
  have h := parseCommit_field_normalization
  have h1 := h.1 [] [] false
    "TYPE: Feat\nSCOPE: none\nDESCRIPTION: add x\nBODY: empty\nBREAKING: drops api".toList
  exact ⟨h1.1.trans (by decide), h1.2.1.trans (by decide), h1.2.2.1.trans (by decide),
    h1.2.2.2.1.trans (by decide),
    h.2 ⟨"wip".toList, [], "fix".toList, [], false, []⟩ (by decide) (by decide) (by decide)⟩
